import Mathlib

/-!
# ember-yeti-table: the data pipeline of `addon/components/yeti-table/component.js`

A shallow embedding of the `YetiTable` component: the pagination window, the page
navigation actions, the filter stage, the sort stage, the column sort action, the two
places where the component waits for a promise (`didReceiveAttrs` and `runLoadData`),
the request descriptor handed to the loader and the selection of the output.

Conventions:

* JavaScript numbers that hold page sizes, page numbers and row counts are integers
  (`Int`); `Math.ceil (a / b)` is `ceilDiv a b`, exact whenever `b ≠ 0`
  (`ceilDiv_eq_ceil`). For `b = 0` JavaScript yields an infinity, which has no
  integer counterpart: every statement about `totalPages` below fixes `pageSize ≠ 0`.
* `undefined` / `null` is `none`.
* Objects compared with `===` carry a reference (`Nat`).
* User supplied functions (`filterFunction`, the compiled regular expressions) are pure
  Boolean functions; comparators return an integer whose sign is read.
* The helpers of `utils/create-regex` and `utils/sorting-utils` and the column property
  `isSorted` are not part of the component file; they are modelled from the
  specification and marked as such.
-/

namespace YetiTable

/-! ## Definitions -/

/-! ### Pagination (`paginationData`, `pagedData`, page actions) -/

/-- Ceiling division, `Math.ceil (a / b)` on integers: minus the floor of `-a / b`. -/
def ceilDiv (a b : Int) : Int := -(Int.fdiv (-a) b)

/-- The object returned by `paginationData`; `isLastPage` and `totalPages` are declared
with `let isLastPage, totalPages;` and stay `undefined` (`none`) unless assigned. -/
structure PaginationData where
  pageSize : Int
  pageNumber : Int
  pageStart : Int
  pageEnd : Int
  isFirstPage : Bool
  isLastPage : Option Bool
  totalRows : Option Int
  totalPages : Option Int
  deriving DecidableEq, Repr

/-- Truthiness of an optional number, as tested by `if (totalRows)` and
`if (totalPages)`: `undefined` and `0` are falsy. -/
def truthy : Option Int → Bool
  | none => false
  | some n => n != 0

/-- The computed property `paginationData` (component.js lines 90-109). -/
def paginationData (pageSize pageNumber : Int) (totalRows : Option Int) : PaginationData :=
  let pageStart := (pageNumber - 1) * pageSize
  let pageEnd := pageStart + pageSize - 1
  let isFirstPage := decide (pageNumber = 1)
  match totalRows with
  | some rows =>
    if truthy (some rows) then
      let totalPages := ceilDiv rows pageSize
      let isLastPage := decide (pageNumber = totalPages)
      let pageEnd := min pageEnd rows
      { pageSize, pageNumber, pageStart, pageEnd, isFirstPage,
        isLastPage := some isLastPage, totalRows := some rows, totalPages := some totalPages }
    else
      { pageSize, pageNumber, pageStart, pageEnd, isFirstPage,
        isLastPage := none, totalRows := some rows, totalPages := none }
  | none =>
    { pageSize, pageNumber, pageStart, pageEnd, isFirstPage,
      isLastPage := none, totalRows := none, totalPages := none }

/-- The method `Array.prototype.slice (start, stop)` on integers: a negative index counts
from the end, both ends are clamped to the array, an empty range gives `[]`. -/
def slice {α : Type} (xs : List α) (start stop : Int) : List α :=
  let len : Int := xs.length
  let k := if start < 0 then max (len + start) 0 else min start len
  let final := if stop < 0 then max (len + stop) 0 else min stop len
  (xs.drop k.toNat).take (final - k).toNat

/-- The computed property `pagedData` (lines 111-122): `sortedData` is what
`this.get('sortedData')` returns, `pd` what `this.get('paginationData')` returns. -/
def pagedData {α : Type} (pagination : Bool) (sortedData : List α) (pd : PaginationData) :
    List α :=
  if pagination then slice sortedData pd.pageStart (pd.pageEnd + 1) else sortedData

/-- The fields of the component read and written by the page actions. -/
structure Paging where
  pagination : Bool
  pageSize : Int
  pageNumber : Int
  totalRows : Option Int
  deriving DecidableEq, Repr

/-- The value of `this.get('paginationData')` on the paging fields. -/
def Paging.paginationData (s : Paging) : PaginationData :=
  YetiTable.paginationData s.pageSize s.pageNumber s.totalRows

/-- The action `previousPage()` (lines 352-358). -/
def previousPage (s : Paging) : Paging :=
  if s.pagination then
    let pageNumber := s.paginationData.pageNumber
    { s with pageNumber := max (pageNumber - 1) 1 }
  else s

/-- The action `nextPage()` (lines 360-369); `!isLastPage` is true for `undefined` and
`false`. -/
def nextPage (s : Paging) : Paging :=
  if s.pagination then
    let pd := s.paginationData
    if pd.isLastPage != some true then { s with pageNumber := pd.pageNumber + 1 } else s
  else s

/-- The action `goToPage(pageNumber)` (lines 371-383). -/
def goToPage (s : Paging) (pageNumber : Int) : Paging :=
  if s.pagination then
    let totalPages := s.paginationData.totalPages
    let pageNumber := max pageNumber 1
    let pageNumber :=
      match totalPages with
      | some tp => if truthy (some tp) then min pageNumber tp else pageNumber
      | none => pageNumber
    { s with pageNumber := pageNumber }
  else s

/-- The action `changePageSize(pageSize)` (lines 385-390). -/
def changePageSize (s : Paging) (pageSize : Int) : Paging :=
  if s.pagination then { s with pageSize := pageSize } else s

/-- The usual clamp of `n` into the interval `[lo, hi]`, written from the words
"n clamped to [1, totalPages]": the nearest point of the interval. -/
def clampTo (n lo hi : Int) : Int :=
  if n < lo then lo else if hi < n then hi else n

/-! ### Filtering (`filteredData`) -/

/-- Ember's `isEmpty` on an optional string: `undefined`, `null` and `''` are empty. -/
def isEmpty : Option String → Bool
  | none => true
  | some text => text == ""

/-- The two sort directions, the strings `'asc'` and `'desc'`. -/
inductive Direction where
  | asc
  | desc
  deriving DecidableEq, Repr

/-- A column component as the table reads it: the fields `prop`, `filterable`, `filter`,
`filterFunction`, `filterUsing` and `sort` (`null`, `'asc'` or `'desc'`). A function is
never empty for `isEmpty`, so `!isEmpty(c.get('filterFunction'))` is
`filterFunction.isSome`; likewise `!isEmpty(c.get('sort'))` is `sort.isSome`. -/
structure Column (Value Ctx : Type) where
  prop : String
  filterable : Bool
  filter : Option String
  filterFunction : Option (Value → Ctx → Bool)
  filterUsing : Ctx
  sort : Option Direction

/-- Modelled from the spec: `createRegex` lives in `utils/create-regex`, which is not
among the sources. It "returns null for empty/absent text; otherwise compiles a
pattern". The compiled pattern is its `test` method, the pure predicate `compile text`;
a regular expression object is never empty for `isEmpty`. -/
def createRegex {Value : Type} (compile : String → Value → Bool) (text : Option String) :
    Option (Value → Bool) :=
  match text with
  | none => none
  | some t => if isEmpty (some t) then none else some (compile t)

/-- The computed property `filteredData` (lines 173-236). `compileGeneral` stands for
`createRegex(filter, false, true, true)`, `compileColumn` for `createRegex(filter)`,
`getProp row prop` for `get(row, prop)`. -/
def filteredData {Row Value Ctx : Type} (compileGeneral compileColumn : String → Value → Bool)
    (getProp : Row → String → Value) (columns : List (Column Value Ctx))
    (filter : Option String) (filterFunction : Option (Row → Ctx → Bool)) (filterUsing : Ctx)
    (resolvedData : List Row) : List Row :=
  let data := resolvedData
  if data.isEmpty then []
  else
    let filterableColumns := columns.filter (fun c => c.filterable)
    if filterableColumns.isEmpty then data
    else
      let generalRegex := createRegex compileGeneral filter
      let searcheableColumns :=
        filterableColumns.filter (fun c => !isEmpty c.filter || c.filterFunction.isSome)
      let columnFilters : List (Row → Bool) := searcheableColumns.map (fun c =>
        let regex := createRegex compileColumn c.filter
        fun row =>
          let value := getProp row c.prop
          let passesRegex :=
            if !isEmpty c.filter then
              match regex with
              | some re => re value
              | none => true
            else true
          let passesCustom :=
            match c.filterFunction with
            | some fn => fn value c.filterUsing
            | none => true
          passesRegex && passesCustom)
      data.filter (fun row =>
        let passesGeneral :=
          match generalRegex with
          | some re => filterableColumns.any (fun c => re (getProp row c.prop))
          | none => true
        let passesColumn :=
          if !columnFilters.isEmpty then columnFilters.all (fun fn => fn row) else true
        let passesCustom := true
        let passesColumn :=
          match filterFunction with
          | some customFilter => customFilter row filterUsing
          | none => passesColumn
        passesGeneral && passesColumn && passesCustom)

/-- The admission predicate in the words of the specification: the global filter is
empty or some filterable column's value matches the general pattern; and, when a
table-level `filterFunction` is set, that function decides, otherwise every filterable
column with a filter string or a `filterFunction` passes its pattern (when `filter` is
set) and its own predicate (when `filterFunction` is set). -/
def admitted {Row Value Ctx : Type} (generalMatch columnMatch : String → Value → Bool)
    (getProp : Row → String → Value) (columns : List (Column Value Ctx))
    (filter : Option String) (filterFunction : Option (Row → Ctx → Bool)) (filterUsing : Ctx)
    (row : Row) : Bool :=
  (match filter with
    | none => true
    | some text =>
      text == "" || columns.any (fun c => c.filterable && generalMatch text (getProp row c.prop)))
  &&
  (match filterFunction with
    | some tableFn => tableFn row filterUsing
    | none =>
      columns.all (fun c =>
        !(c.filterable && (!isEmpty c.filter || c.filterFunction.isSome))
        ||
        ((match c.filter with
            | none => true
            | some text => text == "" || columnMatch text (getProp row c.prop))
          &&
          (match c.filterFunction with
            | none => true
            | some fn => fn (getProp row c.prop) c.filterUsing))))

/-! ### Column registry and `onColumnSort` -/

/-- A reference to a column object; `c !== column` compares references. -/
abbrev Ref := Nat

/-- The column objects and the registry `this.get('columns')`: `store` gives the current
state of every column object, `columns` lists the registered references in registration
order. -/
structure Registry (Value Ctx : Type) where
  store : Ref → Column Value Ctx
  columns : List Ref

/-- The method `registerColumn(column)` (lines 392-394): `addObject` appends unless it is
already in the array. -/
def registerColumn {Value Ctx : Type} (t : Registry Value Ctx) (column : Ref) :
    Registry Value Ctx :=
  if column ∈ t.columns then t else { t with columns := t.columns ++ [column] }

/-- The method `unregisterColumn(column)` (lines 396-398): `removeObject` removes the
object. -/
def unregisterColumn {Value Ctx : Type} (t : Registry Value Ctx) (column : Ref) :
    Registry Value Ctx :=
  { t with columns := t.columns.filter (fun c => c != column) }

/-- Modelled from the spec: the property `isSorted` belongs to the column component,
which is not among the sources; a column is "already sorted" when its `sort` is not
`null`. -/
def isSorted {Value Ctx : Type} (c : Column Value Ctx) : Bool := c.sort.isSome

/-- The write `c.set('sort', value)` on the column object behind `column`. -/
def Registry.setSort {Value Ctx : Type} (t : Registry Value Ctx) (column : Ref)
    (value : Option Direction) : Registry Value Ctx :=
  { t with store := Function.update t.store column { t.store column with sort := value } }

/-- The action `onColumnSort(column, e)` (lines 322-350); `shiftKey` is `e.shiftKey`. -/
def onColumnSort {Value Ctx : Type} (t : Registry Value Ctx) (column : Ref)
    (shiftKey : Bool) : Registry Value Ctx :=
  let direction := Direction.asc
  if isSorted (t.store column) then
    let direction := (t.store column).sort
    let direction := if direction = some Direction.asc then Direction.desc else Direction.asc
    let t := t.setSort column (some direction)
    if !shiftKey then
      let columns := t.columns.filter (fun c => c != column)
      columns.foldl (fun t c => t.setSort c none) t
    else t
  else
    let t := t.setSort column (some direction)
    if !shiftKey then
      let columns := t.columns.filter (fun c => c != column)
      columns.foldl (fun t c => t.setSort c none) t
    else t

/-- One entry of the active sort-key list, `{ prop, direction }`. -/
structure Sorting where
  prop : String
  direction : Direction
  deriving DecidableEq, Repr

/-- The active sort keys (lines 240-241, and again 293-295): the columns with a
non-empty `sort`, in registry order, each mapped to `{ prop, direction }`. -/
def sortings {Value Ctx : Type} (columns : List (Column Value Ctx)) : List Sorting :=
  columns.filterMap (fun c =>
    match c.sort with
    | some direction => some { prop := c.prop, direction := direction }
    | none => none)

/-- The value of `this.get('columns')` as column objects. -/
def Registry.columnObjects {Value Ctx : Type} (t : Registry Value Ctx) :
    List (Column Value Ctx) :=
  t.columns.map t.store

/-- The direction a sort interaction gives to a column whose `sort` was `old`. -/
def nextDirection (old : Option Direction) : Direction :=
  match old with
  | none => Direction.asc
  | some Direction.asc => Direction.desc
  | some Direction.desc => Direction.asc

/-! ### Data resolution (`didReceiveAttrs`, `runLoadData`) -/

/-- The argument `data`: absent, an array (an object with a reference and its rows) or a
promise (an object with a `then`, known by its reference). -/
inductive DataArg (Row : Type) where
  | absent
  | rows (ref : Nat) (items : List Row)
  | pending (promise : Nat)
  deriving DecidableEq, Repr

/-- Strict equality `a === b` on `data` values: objects are equal when their references
are. -/
def DataArg.same {Row : Type} : DataArg Row → DataArg Row → Bool
  | DataArg.absent, DataArg.absent => true
  | DataArg.rows r _, DataArg.rows q _ => r == q
  | DataArg.pending p, DataArg.pending q => p == q
  | _, _ => false

/-- What `loadData(param)` returns: rows, or a promise known by its reference. -/
inductive LoadResult (Row : Type) where
  | rows (items : List Row)
  | pending (promise : Nat)
  deriving DecidableEq, Repr

/-- How a promise settles. -/
inductive Outcome (Row : Type) where
  | fulfilled (value : List Row)
  | rejected
  deriving DecidableEq, Repr

/-- A `.then(...).finally(...)` pair waiting on a promise: `ofData p` was attached by
`didReceiveAttrs` to the promise `data = p` (its closure keeps `data`), `ofLoad p` by
`runLoadData` to the promise `p` returned by the loader. -/
inductive Continuation where
  | ofData (promise : Nat)
  | ofLoad (promise : Nat)
  deriving DecidableEq, Repr

/-- The promise a continuation waits on. -/
def Continuation.promise : Continuation → Nat
  | Continuation.ofData p => p
  | Continuation.ofLoad p => p

/-- The fields of the component that data resolution reads and writes, and the
continuations it has attached to promises that have not settled yet. -/
structure Component (Row : Type) where
  data : DataArg Row
  oldData : DataArg Row
  resolvedData : List Row
  loadData : Bool
  isLoading : Bool
  isDestroyed : Bool
  continuations : List Continuation
  deriving DecidableEq, Repr

/-- The component after `init()` (lines 134-140) and before any `data` was passed;
`loadData` tells whether a loader function is configured. -/
def Component.initial (Row : Type) (loadData : Bool) : Component Row :=
  { data := DataArg.absent, oldData := DataArg.absent, resolvedData := [],
    loadData := loadData, isLoading := false, isDestroyed := false, continuations := [] }

/-- The hook `didReceiveAttrs()` (lines 142-166). -/
def didReceiveAttrs {Row : Type} (s : Component Row) : Component Row :=
  let oldData := s.oldData
  let data := s.data
  let s :=
    if !(data.same oldData) then
      match data with
      | DataArg.pending p =>
        { s with isLoading := true,
                 continuations := s.continuations ++ [Continuation.ofData p] }
      | DataArg.rows _ items => { s with resolvedData := items }
      | DataArg.absent => { s with resolvedData := [] }
    else s
  { s with oldData := data }

/-- The body that `runLoadData()` schedules with `once` (lines 285-318), from the call
`loadData(param)` on: `result` is what the loader returned. -/
def runLoadData {Row : Type} (s : Component Row) (result : LoadResult Row) : Component Row :=
  if s.loadData then
    match result with
    | LoadResult.pending p =>
      { s with isLoading := true,
               continuations := s.continuations ++ [Continuation.ofLoad p] }
    | LoadResult.rows items => { s with resolvedData := items }
  else s

/-- One attached continuation runs: the `then` callback on fulfilment (lines 150-154 for
`data`, 306-309 for the loader), then the `finally` callback (lines 155-159, 310-314). -/
def runContinuation {Row : Type} (s : Component Row) (k : Continuation)
    (outcome : Outcome Row) : Component Row :=
  let s :=
    match outcome with
    | Outcome.fulfilled resolvedData =>
      match k with
      | Continuation.ofData p =>
        if (DataArg.pending p).same s.data && !s.isDestroyed then
          { s with resolvedData := resolvedData }
        else s
      | Continuation.ofLoad _ =>
        if !s.isDestroyed then { s with resolvedData := resolvedData } else s
    | Outcome.rejected => s
  if !s.isDestroyed then { s with isLoading := false } else s

/-- The promise `promise` settles: the continuations attached to it run in the order
they were attached, and are attached no more. -/
def settle {Row : Type} (s : Component Row) (promise : Nat) (outcome : Outcome Row) :
    Component Row :=
  let due := s.continuations.filter (fun k => k.promise == promise)
  let s := { s with continuations := s.continuations.filter (fun k => k.promise != promise) }
  due.foldl (fun s k => runContinuation s k outcome) s

/-- What can happen to the component: a new `data` argument arrives (and
`didReceiveAttrs` runs), a scheduled `runLoadData` runs and the loader returns
`result`, a promise settles, the component is destroyed. -/
inductive Event (Row : Type) where
  | receive (data : DataArg Row)
  | load (result : LoadResult Row)
  | settled (promise : Nat) (outcome : Outcome Row)
  | destroy

/-- One event. -/
def step {Row : Type} (s : Component Row) : Event Row → Component Row
  | Event.receive data => didReceiveAttrs { s with data := data }
  | Event.load result => runLoadData s result
  | Event.settled promise outcome => settle s promise outcome
  | Event.destroy => { s with isDestroyed := true }

/-- A sequence of events, oldest first. -/
def run {Row : Type} (s : Component Row) (events : List (Event Row)) : Component Row :=
  events.foldl step s

/-! ### Sorting (`sortedData`) -/

/-- Modelled from the spec: the merge step of `mergeSort` (`utils/sorting-utils`, which
is not among the sources), for "a stable sort (ties preserve original relative order)
implemented as classic ... top-down merge sort". The head of `left` goes first unless
the comparator puts it strictly after the head of `right`, so that ties keep the order
left before right. -/
def merge {α : Type} (left right : List α) (comparator : α → α → Int) : List α :=
  match left, right with
  | [], rest => rest
  | rest, [] => rest
  | itemA :: leftRest, itemB :: rightRest =>
    if comparator itemA itemB ≤ 0 then
      itemA :: merge leftRest (itemB :: rightRest) comparator
    else
      itemB :: merge (itemA :: leftRest) rightRest comparator

/-- Modelled from the spec: `mergeSort(sequence, comparator)` of `utils/sorting-utils`
(not among the sources), the classic top-down merge sort: an array of at most one
element is returned as it is, a longer one is cut in the middle, both halves are sorted
and merged. -/
def mergeSort {α : Type} (array : List α) (comparator : α → α → Int) : List α :=
  if array.length ≤ 1 then array
  else
    let middleIndex := array.length / 2
    let leftArray := mergeSort (array.take middleIndex) comparator
    let rightArray := mergeSort (array.drop middleIndex) comparator
    merge leftArray rightArray comparator
termination_by array.length
decreasing_by
  all_goals simp_wf
  all_goals omega

/-- Modelled from the spec: `sortMultiple(rowA, rowB, sortings, compareFunction)` of
`utils/sorting-utils` (not among the sources): "compares by the first key; on tie,
recurses to the next key; returns 0 if all keys tie. `direction = "desc"` inverts the
sign of the per-key comparison." -/
def sortMultiple {Row Value : Type} (getProp : Row → String → Value) (rowA rowB : Row)
    (sortings : List Sorting) (compareFunction : Value → Value → Int) : Int :=
  match sortings with
  | [] => 0
  | key :: rest =>
    let compareValue := compareFunction (getProp rowA key.prop) (getProp rowB key.prop)
    let compareValue := if key.direction = Direction.desc then -compareValue else compareValue
    if compareValue ≠ 0 then compareValue
    else sortMultiple getProp rowA rowB rest compareFunction

/-- The comparison of two rows on one sort key, as `sortMultiple` computes it. -/
def keyCompare {Row Value : Type} (getProp : Row → String → Value)
    (compareFunction : Value → Value → Int) (key : Sorting) (rowA rowB : Row) : Int :=
  if key.direction = Direction.desc then
    -compareFunction (getProp rowA key.prop) (getProp rowB key.prop)
  else compareFunction (getProp rowA key.prop) (getProp rowB key.prop)

/-- The computed property `sortedData` (lines 238-252); `sortFunction` and
`compareFunction` are the pluggable functions of the component. -/
def sortedData {Row Value Ctx : Type}
    (sortFunction : Row → Row → List Sorting → (Value → Value → Int) → Int)
    (compareFunction : Value → Value → Int) (columns : List (Column Value Ctx))
    (filteredData : List Row) : List Row :=
  let data := filteredData
  let sortings := sortings columns
  if sortings.length > 0 then
    mergeSort data (fun itemA itemB => sortFunction itemA itemB sortings compareFunction)
  else data

/-- A comparator that orders: its sign flips when the arguments are swapped, and
"not after" (`≤ 0`) is transitive. The default `compareValues` is described as a
"total order over heterogeneous scalar values". -/
structure IsComparator {α : Type} (compare : α → α → Int) : Prop where
  swap : ∀ a b, compare a b < 0 ↔ 0 < compare b a
  trans : ∀ a b c, compare a b ≤ 0 → compare b c ≤ 0 → compare a c ≤ 0

/-- Two rows tie on every active sort key. -/
def tiesOnAll {Row Value : Type} (getProp : Row → String → Value)
    (compareFunction : Value → Value → Int) (sortings : List Sorting) (rowA rowB : Row) :
    Bool :=
  sortings.all (fun key =>
    compareFunction (getProp rowA key.prop) (getProp rowB key.prop) == 0)

/-! ### The pipeline up to `processedData` -/

/-- What the rows are read with: the two ways `createRegex` is called and `get`. -/
structure Access (Row Value : Type) where
  compileGeneral : String → Value → Bool
  compileColumn : String → Value → Bool
  getProp : Row → String → Value

/-- The properties of the component that the computed properties read. `loadData` tells
whether a loader function is set (`this.get('loadData')` is truthy). -/
structure Pipeline (Row Value Ctx : Type) where
  resolvedData : List Row
  loadData : Bool
  pagination : Bool
  pageSize : Int
  pageNumber : Int
  totalRows : Option Int
  filter : Option String
  filterFunction : Option (Row → Ctx → Bool)
  filterUsing : Ctx
  columns : List (Column Value Ctx)
  sortFunction : Row → Row → List Sorting → (Value → Value → Int) → Int
  compareFunction : Value → Value → Int

/-- The value of `this.get('pagedData')`: the stages `filteredData`, `sortedData` and
`pagedData` chained as the computed properties depend on each other. -/
def Pipeline.pagedData {Row Value Ctx : Type} (access : Access Row Value)
    (t : Pipeline Row Value Ctx) : List Row :=
  YetiTable.pagedData t.pagination
    (sortedData t.sortFunction t.compareFunction t.columns
      (filteredData access.compileGeneral access.compileColumn access.getProp t.columns
        t.filter t.filterFunction t.filterUsing t.resolvedData))
    (paginationData t.pageSize t.pageNumber t.totalRows)

/-- The computed property `processedData` (lines 124-132). -/
def processedData {Row Value Ctx : Type} (access : Access Row Value)
    (t : Pipeline Row Value Ctx) : List Row :=
  if t.loadData then
    t.resolvedData
  else
    t.pagedData access

/-! ### The request descriptor of `runLoadData` -/

/-- One entry of `param.sortData` as lines 293-295 build it:
`{ prop: c.get('prop'), direction: c.get('sort') }`. -/
structure SortEntry where
  prop : String
  direction : Option Direction
  deriving DecidableEq, Repr

/-- One entry of `columnFilters`: `{ filter, filterUsing }` of a column. -/
structure ColumnFilter (Ctx : Type) where
  filter : Option String
  filterUsing : Ctx

/-- The object `param.filterData` (lines 296-300). -/
structure FilterData (Ctx : Type) where
  filter : Option String
  filterUsing : Ctx
  columnFilters : List (ColumnFilter Ctx)

/-- The object `param` handed to `loadData`; `paginationData` is assigned only when
`pagination` is set. -/
structure LoadParam (Ctx : Type) where
  paginationData : Option PaginationData
  sortData : List SortEntry
  filterData : FilterData Ctx

/-- The descriptor built by `runLoadData` (lines 287-300) from `this.get('pagination')`,
`this.get('paginationData')`, `this.get('columns')`, `this.get('filter')` and
`this.get('filterUsing')`. -/
def loadParam {Value Ctx : Type} (pagination : Bool) (paginationData : PaginationData)
    (columns : List (Column Value Ctx)) (filter : Option String) (filterUsing : Ctx) :
    LoadParam Ctx :=
  { paginationData := if pagination then some paginationData else none,
    sortData := (columns.filter (fun c => c.sort.isSome)).map
      (fun c => { prop := c.prop, direction := c.sort }),
    filterData :=
      { filter := filter,
        filterUsing := filterUsing,
        columnFilters := columns.map
          (fun c => { filter := c.filter, filterUsing := c.filterUsing }) } }

/-- The rows of the specification's scenario, `[{n:"b",v:2},{n:"a",v:1},{n:"a",v:0}]`,
as pairs `(n, v)`. -/
def scenarioRows : List (String × String) := [("b", "2"), ("a", "1"), ("a", "0")]

/-- Field access on a scenario row. -/
def scenarioGet (row : String × String) (prop : String) : String :=
  if prop == "n" then row.1 else row.2

/-- A pattern for the scenario that matches a value equal to its text. -/
def scenarioMatch (text value : String) : Bool := text == value

/-- The column `n` of the scenario with filter text `text`. -/
def scenarioColumn (filterable : Bool) (text : Option String) : Column String Unit :=
  { prop := "n", filterable := filterable, filter := text, filterFunction := none,
    filterUsing := (), sort := none }

/-- A registry for the scenario: column `0` is `n`, column `1` is `v`, column `2` is a
third column `w`; `v` is sorted descending, `w` ascending, `n` is not sorted. -/
def scenarioRegistry : Registry String Unit :=
  { store := fun r =>
      { prop := if r = 0 then "n" else if r = 1 then "v" else "w",
        filterable := true, filter := none, filterFunction := none, filterUsing := (),
        sort := if r = 0 then none else if r = 1 then some Direction.desc
          else some Direction.asc },
    columns := [0, 1, 2] }

/-- The getter `paginationData` as a computation that could throw. Its body (lines
92-108) has no `throw`, and what it calls (arithmetic on numbers, `===`, `Math.ceil`,
`Math.min`) does not throw either, so it always returns the window. -/
def paginationDataResult (pageSize pageNumber : Int) (totalRows : Option Int) :
    Except String PaginationData :=
  Except.ok (paginationData pageSize pageNumber totalRows)

/-- A comparator on strings for the scenario: `-1`, `0` or `1` by the order of strings. -/
def scenarioCompare (a b : String) : Int :=
  if a < b then -1 else if a = b then 0 else 1

/-- The column with field `prop` and sort `sort`, for the scenario. -/
def scenarioSortColumn (prop : String) (sort : Option Direction) : Column String Unit :=
  { prop := prop, filterable := false, filter := none, filterFunction := none,
    filterUsing := (), sort := sort }

/-! ## Theorems -/

/-! ### Pagination -/

/-- Floor division by a negative divisor is floor division of the negated operands. -/
theorem fdiv_negSucc (x : Int) (n : Nat) :
    Int.fdiv x (Int.negSucc n) = Int.fdiv (-x) ((n + 1 : Nat) : Int) := by
  rcases x with (_ | m) | m
  · simp
  · rfl
  · rfl

/-- Floor division on integers is the floor of the exact quotient. -/
theorem fdiv_eq_floor (x b : Int) : Int.fdiv x b = ⌊(x : ℚ) / (b : ℚ)⌋ := by
  rcases b with n | n
  · show x.fdiv (n : Int) = ⌊(x : ℚ) / ((n : Int) : ℚ)⌋
    rw [Int.fdiv_eq_ediv x (Int.ofNat_nonneg n)]
    exact (Rat.floor_intCast_div_natCast x n).symm
  · rw [fdiv_negSucc, Int.fdiv_eq_ediv _ (Int.ofNat_nonneg _),
      ← Rat.floor_intCast_div_natCast]
    congr 1
    rw [Int.negSucc_eq]
    push_cast
    rw [neg_div, ← div_neg, neg_add]

/-- On a non-zero divisor `ceilDiv` is the ceiling of the exact quotient, which is what
`Math.ceil (totalRows / pageSize)` computes. -/
theorem ceilDiv_eq_ceil (a b : Int) (_hb : b ≠ 0) : ceilDiv a b = ⌈(a : ℚ) / (b : ℚ)⌉ := by
  unfold ceilDiv
  rw [fdiv_eq_floor]
  push_cast
  rw [neg_div, Int.floor_neg, neg_neg]

/-- For a positive divisor the ceiling quotient `q` is pinned by `(q - 1) * b < a ≤ q * b`. -/
theorem ceilDiv_bounds (a b : Int) (hb : 0 < b) :
    (ceilDiv a b - 1) * b < a ∧ a ≤ ceilDiv a b * b := by
  unfold ceilDiv
  rw [Int.fdiv_eq_ediv _ (le_of_lt hb)]
  have h1 := Int.emod_add_ediv (-a) b
  have h2 := Int.emod_nonneg (-a) (ne_of_gt hb)
  have h3 := Int.emod_lt_of_pos (-a) hb
  constructor <;> nlinarith

/-- A positive row count over a positive page size gives at least one page. -/
theorem ceilDiv_pos (a b : Int) (ha : 0 < a) (hb : 0 < b) : 1 ≤ ceilDiv a b := by
  have h := (ceilDiv_bounds a b hb).2
  by_contra hc
  have : ceilDiv a b ≤ 0 := by omega
  nlinarith

/-- A non-positive row count over a positive page size gives no page. -/
theorem ceilDiv_nonpos (a b : Int) (ha : a ≤ 0) (hb : 0 < b) : ceilDiv a b ≤ 0 := by
  have h := (ceilDiv_bounds a b hb).1
  by_contra hc
  have : 1 ≤ ceilDiv a b := by omega
  nlinarith

/-- What `paginationData` returns when `totalRows` passes the test `if (totalRows)`. -/
theorem paginationData_truthy (pageSize pageNumber rows : Int) (h : rows ≠ 0) :
    paginationData pageSize pageNumber (some rows) =
      { pageSize := pageSize, pageNumber := pageNumber,
        pageStart := (pageNumber - 1) * pageSize,
        pageEnd := min ((pageNumber - 1) * pageSize + pageSize - 1) rows,
        isFirstPage := decide (pageNumber = 1),
        isLastPage := some (decide (pageNumber = ceilDiv rows pageSize)),
        totalRows := some rows, totalPages := some (ceilDiv rows pageSize) } := by
  simp [paginationData, truthy, h]

/-- What `paginationData` returns when `totalRows` is `0`: the branch guarded by
`if (totalRows)` is skipped, exactly as for an absent `totalRows`. -/
theorem paginationData_zero (pageSize pageNumber : Int) :
    paginationData pageSize pageNumber (some 0) =
      { pageSize := pageSize, pageNumber := pageNumber,
        pageStart := (pageNumber - 1) * pageSize,
        pageEnd := (pageNumber - 1) * pageSize + pageSize - 1,
        isFirstPage := decide (pageNumber = 1),
        isLastPage := none, totalRows := some 0, totalPages := none } := by
  simp [paginationData, truthy]

/-- What `paginationData` returns when `totalRows` is absent. -/
theorem paginationData_none (pageSize pageNumber : Int) :
    paginationData pageSize pageNumber none =
      { pageSize := pageSize, pageNumber := pageNumber,
        pageStart := (pageNumber - 1) * pageSize,
        pageEnd := (pageNumber - 1) * pageSize + pageSize - 1,
        isFirstPage := decide (pageNumber = 1),
        isLastPage := none, totalRows := none, totalPages := none } := by
  simp [paginationData]

/-- The window for every `totalRows` that is absent or non-zero: `pageStart`,
`isFirstPage`, the unclamped `pageEnd` and absent `totalPages` / `isLastPage` without
`totalRows`, and `totalPages = ceil (totalRows / pageSize)` with it. -/
theorem paginationData_window (pageSize pageNumber : Int) :
    (∀ totalRows, (paginationData pageSize pageNumber totalRows).pageStart
        = (pageNumber - 1) * pageSize
      ∧ (paginationData pageSize pageNumber totalRows).isFirstPage
        = decide (pageNumber = 1))
    ∧ (paginationData pageSize pageNumber none).pageEnd
        = (pageNumber - 1) * pageSize + pageSize - 1
    ∧ (paginationData pageSize pageNumber none).totalPages = none
    ∧ (paginationData pageSize pageNumber none).isLastPage = none
    ∧ ∀ rows : Int, rows ≠ 0 → pageSize ≠ 0 →
        (paginationData pageSize pageNumber (some rows)).totalPages
          = some ⌈(rows : ℚ) / (pageSize : ℚ)⌉ := by
  refine ⟨?_, by simp [paginationData], by simp [paginationData],
    by simp [paginationData], ?_⟩
  · intro totalRows
    rcases totalRows with _ | rows
    · simp [paginationData]
    · by_cases h : rows = 0
      · subst h; simp [paginationData_zero]
      · simp [paginationData_truthy _ _ _ h]
  · intro rows h hps
    rw [paginationData_truthy _ _ _ h, ceilDiv_eq_ceil _ _ hps]

/-- C2 (code evaluated at the failing input): with `pageSize = 1`, `pageNumber = 1` and
the known row count `totalRows = 0`, `paginationData` leaves `totalPages` (and
`isLastPage`) undefined, although `ceil (0 / 1) = 0`; the scenario of the claim
(`pageSize = 1`, `pageNumber = 2`, `totalRows = 3`) is returned as stated. -/
theorem paginationData_known_zero_rows :
    paginationData 1 1 (some 0) =
      { pageSize := 1, pageNumber := 1, pageStart := 0, pageEnd := 0, isFirstPage := true,
        isLastPage := none, totalRows := some 0, totalPages := none }
    ∧ ceilDiv 0 1 = 0
    ∧ paginationData 1 2 (some 3) =
      { pageSize := 1, pageNumber := 2, pageStart := 1, pageEnd := 1, isFirstPage := false,
        isLastPage := some false, totalRows := some 3, totalPages := some 3 } := by
  decide

/-- For a known row count, `isLastPage` is `true` exactly on the page numbered
`ceil (totalRows / pageSize)`; at `totalRows = 0` it is undefined, hence not `true`. -/
theorem isLastPage_iff (pageSize pageNumber rows : Int) (hps : 0 < pageSize)
    (hpn : 1 ≤ pageNumber) :
    (paginationData pageSize pageNumber (some rows)).isLastPage = some true
      ↔ pageNumber = ceilDiv rows pageSize := by
  by_cases h : rows = 0
  · subst h
    have h0 := ceilDiv_nonpos 0 pageSize (le_refl 0) hps
    rw [paginationData_zero]
    constructor
    · intro hc; cases hc
    · intro hc; omega
  · simp [paginationData_truthy _ _ _ h]

/-- C10 (code evaluated at the failing input): for every page size and page number,
a known `totalRows` of `0` gives a window without `totalPages`; `isLastPage` is
undefined there, so it is not `true`. -/
theorem paginationData_zero_rows_totalPages_absent (pageSize pageNumber : Int) :
    (paginationData pageSize pageNumber (some 0)).totalPages = none
    ∧ (paginationData pageSize pageNumber (some 0)).isLastPage = none
    ∧ (paginationData 15 1 (some 0)).totalPages ≠ some (ceilDiv 0 15) := by
  refine ⟨by simp [paginationData_zero], by simp [paginationData_zero], by decide⟩

/-- With a positive page size and a row count that is not negative, a `totalPages`
that is present is at least `1`. -/
theorem totalPages_pos (pageSize pageNumber : Int) (totalRows : Option Int) (tp : Int)
    (hps : 0 < pageSize) (hrows : ∀ r, totalRows = some r → 0 ≤ r)
    (htp : (paginationData pageSize pageNumber totalRows).totalPages = some tp) :
    1 ≤ tp ∧ ∃ r, totalRows = some r ∧ 0 < r ∧ tp = ceilDiv r pageSize := by
  rcases totalRows with _ | r
  · simp [paginationData] at htp
  · by_cases h : r = 0
    · subst h; simp [paginationData_zero] at htp
    · have hr : 0 < r := lt_of_le_of_ne (hrows r rfl) (Ne.symm h)
      simp [paginationData_truthy _ _ _ h] at htp
      subst htp
      exact ⟨ceilDiv_pos r pageSize hr hps, r, rfl, hr, rfl⟩

/-- C7: with pagination enabled (positive page size, row count not negative),
`previousPage` sets `pageNumber` to `max (pageNumber - 1) 1`; `nextPage` sets it to
`pageNumber + 1` unless `isLastPage` is `true`, and then changes nothing; `goToPage n`
sets it to `n` clamped to `[1, totalPages]` when `totalPages` is present (and then
`1 ≤ totalPages`), and to `max n 1` when it is absent. No other field changes. -/
theorem page_actions (s : Paging) (n : Int) (hp : s.pagination = true)
    (hps : 0 < s.pageSize) (hrows : ∀ r, s.totalRows = some r → 0 ≤ r) :
    previousPage s = { s with pageNumber := max (s.pageNumber - 1) 1 }
    ∧ (s.paginationData.isLastPage = some true → nextPage s = s)
    ∧ (s.paginationData.isLastPage ≠ some true →
        nextPage s = { s with pageNumber := s.pageNumber + 1 })
    ∧ (∀ tp, s.paginationData.totalPages = some tp →
        1 ≤ tp ∧ goToPage s n = { s with pageNumber := clampTo n 1 tp })
    ∧ (s.paginationData.totalPages = none →
        goToPage s n = { s with pageNumber := max n 1 }) := by
  have hpn : ∀ totalRows, (paginationData s.pageSize s.pageNumber totalRows).pageNumber
      = s.pageNumber := by
    intro totalRows
    rcases totalRows with _ | r
    · simp [paginationData]
    · by_cases h : r = 0
      · subst h; simp [paginationData_zero]
      · simp [paginationData_truthy _ _ _ h]
  refine ⟨?_, ?_, ?_, ?_, ?_⟩
  · simp [previousPage, hp, Paging.paginationData, hpn]
  · intro h
    simp [nextPage, hp, h]
  · intro h
    have hne : (s.paginationData.isLastPage != some true) = true := by simpa using h
    simp only [nextPage, hp, if_true, hne]
    simp [Paging.paginationData, hpn]
  · intro tp htp
    have h1 := (totalPages_pos s.pageSize s.pageNumber s.totalRows tp hps hrows htp).1
    refine ⟨h1, ?_⟩
    have htr : truthy (some tp) = true := by simp [truthy]; omega
    have hc : min (max n 1) tp = clampTo n 1 tp := by
      unfold clampTo
      split_ifs <;> omega
    simp only [goToPage, hp, if_true, htp, htr, hc]
  · intro htp
    simp only [goToPage, hp, if_true, htp]

/-- C7 at a concrete table: page 2 of 3 pages of size 5 over 12 rows, `goToPage 7`. -/
theorem page_actions_witness :
    previousPage ⟨true, 5, 2, some 12⟩ = ⟨true, 5, 1, some 12⟩
    ∧ nextPage ⟨true, 5, 2, some 12⟩ = ⟨true, 5, 3, some 12⟩
    ∧ nextPage ⟨true, 5, 3, some 12⟩ = ⟨true, 5, 3, some 12⟩
    ∧ goToPage ⟨true, 5, 2, some 12⟩ 7 = ⟨true, 5, 3, some 12⟩
    ∧ (∀ tp, (Paging.paginationData ⟨true, 5, 2, some 12⟩).totalPages = some tp →
        1 ≤ tp ∧ goToPage ⟨true, 5, 2, some 12⟩ 7
          = { (⟨true, 5, 2, some 12⟩ : Paging) with pageNumber := clampTo 7 1 tp }) :=
  ⟨by decide, by decide, by decide, by decide,
    (page_actions ⟨true, 5, 2, some 12⟩ 7 rfl (by decide)
      (by intro r h; cases h; decide)).2.2.2.1⟩

/-- With indices that are not negative `slice` drops `start` and keeps `stop - start`. -/
theorem slice_of_nonneg {α : Type} (xs : List α) (start stop : Int) (h0 : 0 ≤ start)
    (h1 : 0 ≤ stop) :
    slice xs start stop = (xs.drop start.toNat).take (stop - start).toNat := by
  unfold slice
  simp only [not_lt.mpr h0, not_lt.mpr h1, if_false]
  apply List.ext_getElem?
  intro i
  simp only [List.getElem?_take, List.getElem?_drop]
  by_cases hlen : start ≤ (xs.length : Int)
  · rw [min_eq_left hlen]
    by_cases hi : i < (stop - start).toNat
    · by_cases hi2 : i < (min stop (xs.length : Int) - start).toNat
      · simp [hi, hi2]
      · have : xs.length ≤ start.toNat + i := by omega
        simp [hi, hi2, List.getElem?_eq_none this]
    · have hi2 : ¬ i < (min stop (xs.length : Int) - start).toNat := by omega
      simp [hi, hi2]
  · have hk : min start (xs.length : Int) = xs.length := by omega
    rw [hk]
    have e1 : xs.length ≤ ((xs.length : Int)).toNat + i := by omega
    have e2 : xs.length ≤ start.toNat + i := by omega
    simp [List.getElem?_eq_none e1, List.getElem?_eq_none e2]

/-- The end of the window is at least `-1` and less than `pageStart + pageSize`. -/
theorem pageEnd_bounds (pageSize pageNumber : Int) (totalRows : Option Int)
    (hps : 0 < pageSize) (hpn : 1 ≤ pageNumber) (hrows : ∀ r, totalRows = some r → 0 ≤ r) :
    0 ≤ (paginationData pageSize pageNumber totalRows).pageStart
    ∧ 0 ≤ (paginationData pageSize pageNumber totalRows).pageEnd + 1
    ∧ (paginationData pageSize pageNumber totalRows).pageEnd + 1
        ≤ (paginationData pageSize pageNumber totalRows).pageStart + pageSize := by
  have hs : 0 ≤ (pageNumber - 1) * pageSize := by nlinarith
  rcases totalRows with _ | r
  · simp only [paginationData_none]
    omega
  · by_cases h : r = 0
    · subst h
      simp only [paginationData_zero]
      omega
    · have hr := hrows r rfl
      simp only [paginationData_truthy _ _ _ h]
      omega

/-- C8: for a positive page size, a page number from `1` on and a row count that is
not negative, `pagedData` is `sortedData` itself with pagination disabled, and with
pagination enabled the contiguous run of `sortedData` that starts at `pageStart`:
its `i`-th row is row `pageStart + i` of `sortedData`, its length is
`max 0 (min (pageEnd + 1) (length sortedData) - pageStart)`, at most `pageSize`. -/
theorem pagedData_run {α : Type} (sortedData : List α) (pageSize pageNumber : Int)
    (totalRows : Option Int) (hps : 0 < pageSize) (hpn : 1 ≤ pageNumber)
    (hrows : ∀ r, totalRows = some r → 0 ≤ r) :
    pagedData false sortedData (paginationData pageSize pageNumber totalRows) = sortedData
    ∧ ((pagedData true sortedData (paginationData pageSize pageNumber totalRows)).length
        : Int)
        = max 0 (min ((paginationData pageSize pageNumber totalRows).pageEnd + 1)
            (sortedData.length : Int)
            - (paginationData pageSize pageNumber totalRows).pageStart)
    ∧ ((pagedData true sortedData (paginationData pageSize pageNumber totalRows)).length
        : Int) ≤ pageSize
    ∧ 0 ≤ (paginationData pageSize pageNumber totalRows).pageStart
    ∧ ∀ i, i < (pagedData true sortedData
          (paginationData pageSize pageNumber totalRows)).length →
        (paginationData pageSize pageNumber totalRows).pageStart.toNat + i
          < sortedData.length
        ∧ (pagedData true sortedData (paginationData pageSize pageNumber totalRows))[i]?
          = sortedData[(paginationData pageSize pageNumber totalRows).pageStart.toNat + i]? := by
  obtain ⟨h0, h1, h2⟩ := pageEnd_bounds pageSize pageNumber totalRows hps hpn hrows
  generalize paginationData pageSize pageNumber totalRows = pd at h0 h1 h2 ⊢
  have hsl : pagedData true sortedData pd
      = (sortedData.drop pd.pageStart.toNat).take (pd.pageEnd + 1 - pd.pageStart).toNat := by
    simp only [pagedData, if_true]
    exact slice_of_nonneg sortedData pd.pageStart (pd.pageEnd + 1) h0 h1
  have hlen : (pagedData true sortedData pd).length
      = min (pd.pageEnd + 1 - pd.pageStart).toNat (sortedData.length - pd.pageStart.toNat) := by
    rw [hsl, List.length_take, List.length_drop]
  refine ⟨by simp [pagedData], ?_, ?_, h0, ?_⟩
  · rw [hlen]; omega
  · rw [hlen]; omega
  · intro i hi
    rw [hlen] at hi
    refine ⟨by omega, ?_⟩
    rw [hsl, List.getElem?_take, List.getElem?_drop]
    have : i < (pd.pageEnd + 1 - pd.pageStart).toNat := by omega
    simp [this]

/-- C8 on five rows: page 2 of size 2 is rows 2 and 3, also when `totalRows = 5`. -/
theorem pagedData_run_witness :
    pagedData true [10, 11, 12, 13, 14] (paginationData 2 2 (some 5)) = [12, 13]
    ∧ pagedData true [10, 11, 12, 13, 14] (paginationData 2 2 none) = [12, 13]
    ∧ ((pagedData true [10, 11, 12, 13, 14] (paginationData 2 2 (some 5))).length : Int)
        ≤ 2 :=
  ⟨by decide, by decide,
    (pagedData_run [10, 11, 12, 13, 14] 2 2 (some 5) (by decide) (by decide)
      (by intro r h; cases h; decide)).2.2.1⟩

/-! ### Filtering -/

section Filtering

variable {Row Value Ctx : Type}

/-- The guard around `every`: `every` over the closures is `all` over the list, and
the guard `!isEmpty(columnFilters)` changes nothing, `every` on `[]` being `true`. -/
theorem all_guarded {α : Type} (fns : List α) (p : α → Bool) :
    (if !fns.isEmpty then fns.all p else true) = fns.all p := by
  cases fns <;> simp

/-- Running every closure made from the columns selected by `p` and then by `q` is the
same as asking each column selected by both for its verdict. -/
theorem all_map_filter_filter {α β : Type} (xs : List α) (p q : α → Bool)
    (mk : α → β → Bool) (b : β) :
    (((xs.filter p).filter q).map mk).all (fun fn => fn b)
      = xs.all (fun x => !(p x && q x) || mk x b) := by
  induction xs with
  | nil => rfl
  | cons x xs ih =>
    rw [List.all_cons, ← ih]
    cases hp : p x
    · rw [List.filter_cons_of_neg (by simp [hp])]
      rfl
    · rw [List.filter_cons_of_pos hp]
      cases hq : q x
      · rw [List.filter_cons_of_neg (by simp [hq])]
        rfl
      · rw [List.filter_cons_of_pos hq, List.map_cons, List.all_cons]
        rfl

/-- The verdict of the general filter: `generalRegex` is `null` exactly when the global
filter is empty. -/
theorem passesGeneral_eq (compileGeneral : String → Value → Bool)
    (getProp : Row → String → Value) (columns : List (Column Value Ctx))
    (filter : Option String) (row : Row) :
    (match createRegex compileGeneral filter with
      | some re => (columns.filter (fun c => c.filterable)).any
          (fun c => re (getProp row c.prop))
      | none => true)
    = (match filter with
      | none => true
      | some text => text == "" ||
          columns.any (fun c => c.filterable && compileGeneral text (getProp row c.prop))) := by
  rcases filter with _ | text
  · simp [createRegex]
  · by_cases h : text = ""
    · simp [createRegex, isEmpty, h]
    · simp [createRegex, isEmpty, h, List.any_filter]

/-- The verdict of one column filter closure. -/
theorem columnFilter_eq (compileColumn : String → Value → Bool) (c : Column Value Ctx)
    (value : Value) :
    ((if !isEmpty c.filter then
        match createRegex compileColumn c.filter with
        | some re => re value
        | none => true
      else true)
      && (match c.filterFunction with
        | some fn => fn value c.filterUsing
        | none => true))
    = ((match c.filter with
        | none => true
        | some text => text == "" || compileColumn text value)
      && (match c.filterFunction with
        | none => true
        | some fn => fn value c.filterUsing)) := by
  congr 1
  · rcases hf : c.filter with _ | text
    · simp [isEmpty]
    · by_cases h : text = ""
      · simp [isEmpty, h]
      · simp [createRegex, isEmpty, h]
  · cases c.filterFunction <;> rfl

/-- The row predicate handed to `data.filter` is the admission predicate. -/
theorem filteredData_eq_filter (compileGeneral compileColumn : String → Value → Bool)
    (getProp : Row → String → Value) (columns : List (Column Value Ctx))
    (filter : Option String) (filterFunction : Option (Row → Ctx → Bool)) (filterUsing : Ctx)
    (resolvedData : List Row) (hcol : ∃ c ∈ columns, c.filterable = true) :
    filteredData compileGeneral compileColumn getProp columns filter filterFunction
        filterUsing resolvedData
      = resolvedData.filter (admitted compileGeneral compileColumn getProp columns filter
          filterFunction filterUsing) := by
  have hne : (columns.filter (fun c => c.filterable)).isEmpty = false := by
    obtain ⟨c, hc, hf⟩ := hcol
    have : c ∈ columns.filter (fun c => c.filterable) := List.mem_filter.mpr ⟨hc, hf⟩
    cases hl : columns.filter (fun c => c.filterable) with
    | nil => rw [hl] at this; cases this
    | cons _ _ => rfl
  unfold filteredData
  cases hd : resolvedData.isEmpty
  · simp only [hd, hne, Bool.false_eq_true, if_false]
    apply List.filter_congr
    intro row _
    rw [all_guarded, passesGeneral_eq]
    unfold admitted
    simp only [Bool.and_true]
    congr 1
    rcases filterFunction with _ | tableFn
    · dsimp only
      rw [all_map_filter_filter]
      congr 1
      funext c
      rw [columnFilter_eq]
    · rfl
  · have : resolvedData = [] := List.isEmpty_iff.mp hd
    simp [this]

/-- C1: for a non-empty row list and a registry with at least one filterable column,
`filteredData` is the input filtered, in its original order, by the admission
predicate: (global filter empty or some filterable column matches the general pattern)
and (the table-level `filterFunction` when set, otherwise every filterable column with
a filter string or `filterFunction` passes its pattern and its own predicate). -/
theorem filteredData_admitted (compileGeneral compileColumn : String → Value → Bool)
    (getProp : Row → String → Value) (columns : List (Column Value Ctx))
    (filter : Option String) (filterFunction : Option (Row → Ctx → Bool)) (filterUsing : Ctx)
    (resolvedData : List Row) (_hdata : resolvedData ≠ [])
    (hcol : ∃ c ∈ columns, c.filterable = true) :
    filteredData compileGeneral compileColumn getProp columns filter filterFunction
        filterUsing resolvedData
      = resolvedData.filter (admitted compileGeneral compileColumn getProp columns filter
          filterFunction filterUsing)
    ∧ List.Sublist (filteredData compileGeneral compileColumn getProp columns filter
        filterFunction filterUsing resolvedData) resolvedData := by
  have h := filteredData_eq_filter compileGeneral compileColumn getProp columns filter
    filterFunction filterUsing resolvedData hcol
  refine ⟨h, ?_⟩
  rw [h]
  exact List.filter_sublist resolvedData

/-- C1 on the scenario of the specification: filtering column `n` with the text `"a"`
keeps rows 2 and 3, in that order. -/
theorem filteredData_admitted_witness :
    filteredData scenarioMatch scenarioMatch scenarioGet [scenarioColumn true (some "a")]
        none none () scenarioRows = [("a", "1"), ("a", "0")]
    ∧ filteredData scenarioMatch scenarioMatch scenarioGet [scenarioColumn true (some "a")]
        none none () scenarioRows
      = scenarioRows.filter (admitted scenarioMatch scenarioMatch scenarioGet
          [scenarioColumn true (some "a")] none none ()) :=
  ⟨by decide,
    (filteredData_admitted scenarioMatch scenarioMatch scenarioGet
      [scenarioColumn true (some "a")] none none () scenarioRows (by decide)
      ⟨scenarioColumn true (some "a"), List.mem_singleton.mpr rfl, rfl⟩).1⟩

/-- C9: when no registered column is filterable, `filteredData` is the input rows,
unchanged and in the same order, whatever the global filter, the table-level
`filterFunction`, `filterUsing` and the columns' own filters are. -/
theorem filteredData_no_filterable (compileGeneral compileColumn : String → Value → Bool)
    (getProp : Row → String → Value) (columns : List (Column Value Ctx))
    (filter : Option String) (filterFunction : Option (Row → Ctx → Bool)) (filterUsing : Ctx)
    (resolvedData : List Row) (hcol : ∀ c ∈ columns, c.filterable = false) :
    filteredData compileGeneral compileColumn getProp columns filter filterFunction
        filterUsing resolvedData = resolvedData := by
  have hnil : columns.filter (fun c => c.filterable) = [] := by
    rw [List.filter_eq_nil_iff]
    intro c hc
    simp [hcol c hc]
  unfold filteredData
  cases hd : resolvedData.isEmpty
  · simp [hnil]
  · have : resolvedData = [] := List.isEmpty_iff.mp hd
    simp [this]

/-- C9 on the scenario rows: a column that is not filterable, a global filter `"a"`, a
column filter `"a"` and a table-level `filterFunction` rejecting every row leave the
rows as they are. -/
theorem filteredData_no_filterable_witness :
    filteredData scenarioMatch scenarioMatch scenarioGet [scenarioColumn false (some "a")]
        (some "a") (some (fun _ _ => false)) () scenarioRows = scenarioRows :=
  filteredData_no_filterable scenarioMatch scenarioMatch scenarioGet
    [scenarioColumn false (some "a")] (some "a") (some (fun _ _ => false)) () scenarioRows
    (by intro c hc; rw [List.mem_singleton.mp hc]; rfl)

end Filtering

/-! ### Column sort action -/

section Sorting

variable {Value Ctx : Type}

/-- Resetting the sort of a list of columns changes no registry entry. -/
theorem foldl_setSort_columns (refs : List Ref) (t : Registry Value Ctx) :
    (refs.foldl (fun t c => t.setSort c none) t).columns = t.columns := by
  induction refs generalizing t with
  | nil => rfl
  | cons r refs ih => rw [List.foldl_cons, ih]; rfl

/-- Resetting the sort of a list of columns leaves every column outside the list alone. -/
theorem foldl_setSort_store_of_not_mem (refs : List Ref) (t : Registry Value Ctx) (r : Ref)
    (h : r ∉ refs) : (refs.foldl (fun t c => t.setSort c none) t).store r = t.store r := by
  induction refs generalizing t with
  | nil => rfl
  | cons x refs ih =>
    rw [List.foldl_cons, ih _ (fun hm => h (List.mem_cons_of_mem _ hm))]
    have hne : r ≠ x := fun e => h (e ▸ List.mem_cons_self _ _)
    simp [Registry.setSort, Function.update_noteq hne]

/-- Resetting the sort of a list of columns gives each of them `sort = null` and
keeps their other fields. -/
theorem foldl_setSort_store_of_mem (refs : List Ref) (t : Registry Value Ctx) (r : Ref)
    (h : r ∈ refs) :
    (refs.foldl (fun t c => t.setSort c none) t).store r = { t.store r with sort := none } := by
  induction refs generalizing t with
  | nil => cases h
  | cons x refs ih =>
    rw [List.foldl_cons]
    by_cases hm : r ∈ refs
    · rw [ih _ hm]
      by_cases hx : r = x
      · subst hx; simp [Registry.setSort]
      · simp [Registry.setSort, Function.update_noteq hx]
    · have hx : r = x := by
        rcases List.mem_cons.mp h with e | e
        · exact e
        · exact absurd e hm
      subst hx
      rw [foldl_setSort_store_of_not_mem _ _ _ hm]
      simp [Registry.setSort]

/-- Resetting the other registered columns leaves the column acted on alone. -/
theorem resetOthers_store_self (t : Registry Value Ctx) (column : Ref) :
    ((t.columns.filter (fun c => c != column)).foldl (fun t c => t.setSort c none) t).store
      column = t.store column := by
  apply foldl_setSort_store_of_not_mem
  simp [List.mem_filter]

/-- Resetting the other registered columns gives each of them `sort = null`. -/
theorem resetOthers_store_other (t : Registry Value Ctx) (column r : Ref)
    (hr : r ∈ t.columns) (hne : r ≠ column) :
    ((t.columns.filter (fun c => c != column)).foldl (fun t c => t.setSort c none) t).store r
      = { t.store r with sort := none } := by
  apply foldl_setSort_store_of_mem
  simp [List.mem_filter, hr, hne]

/-- Writing a column's sort and reading that column back. -/
theorem setSort_store_self (t : Registry Value Ctx) (column : Ref) (v : Option Direction) :
    (t.setSort column v).store column = { t.store column with sort := v } := by
  simp [Registry.setSort]

/-- Writing a column's sort leaves the other column objects alone. -/
theorem setSort_store_other (t : Registry Value Ctx) (column r : Ref) (v : Option Direction)
    (hne : r ≠ column) : (t.setSort column v).store r = t.store r := by
  simp [Registry.setSort, Function.update_noteq hne]

/-- The column acted on: its `sort` becomes the toggled direction, nothing else of it
changes. -/
theorem onColumnSort_store_self (t : Registry Value Ctx) (column : Ref) (shiftKey : Bool) :
    (onColumnSort t column shiftKey).store column
      = { t.store column with sort := some (nextDirection (t.store column).sort) } := by
  unfold onColumnSort
  rcases hs : (t.store column).sort with _ | d
  · cases shiftKey
    · simp only [isSorted, hs, Option.isSome_none, Bool.false_eq_true, if_false, Bool.not_false,
        if_true]
      rw [resetOthers_store_self, setSort_store_self]
      rfl
    · simp only [isSorted, hs, Option.isSome_none, Bool.false_eq_true, if_false, Bool.not_true]
      rw [setSort_store_self]
      rfl
  · cases shiftKey
    · simp only [isSorted, hs, Option.isSome_some, if_true, Bool.not_false]
      rw [resetOthers_store_self, setSort_store_self]
      cases d <;> rfl
    · simp only [isSorted, hs, Option.isSome_some, if_true, Bool.not_true, Bool.false_eq_true,
        if_false]
      rw [setSort_store_self]
      cases d <;> rfl

/-- The registry itself is not changed by a sort interaction. -/
theorem onColumnSort_columns (t : Registry Value Ctx) (column : Ref) (shiftKey : Bool) :
    (onColumnSort t column shiftKey).columns = t.columns := by
  unfold onColumnSort
  cases shiftKey <;> cases isSorted (t.store column) <;>
    simp only [Bool.false_eq_true, if_false, if_true, Bool.not_false, Bool.not_true] <;>
    first
      | rfl
      | (rw [foldl_setSort_columns]; rfl)

/-- Without the shift key every other registered column loses its sort and keeps its
other fields. -/
theorem onColumnSort_store_other (t : Registry Value Ctx) (column r : Ref)
    (hr : r ∈ t.columns) (hne : r ≠ column) :
    (onColumnSort t column false).store r = { t.store r with sort := none } := by
  unfold onColumnSort
  cases isSorted (t.store column) <;>
    simp only [Bool.false_eq_true, if_false, if_true, Bool.not_false] <;>
    rw [resetOthers_store_other (t.setSort column _) column r hr hne,
      setSort_store_other _ _ _ _ hne]

/-- On a list without repetition, a partial map defined at one member only collects
exactly that member's image. -/
theorem filterMap_eq_singleton {α β : Type} (f : α → Option β) (a : α) (b : β) (l : List α)
    (hmem : a ∈ l) (hnd : l.Nodup) (ha : f a = some b)
    (hothers : ∀ r ∈ l, r ≠ a → f r = none) : l.filterMap f = [b] := by
  induction l with
  | nil => cases hmem
  | cons x xs ih =>
    obtain ⟨hx, hxs⟩ := List.nodup_cons.mp hnd
    by_cases e : x = a
    · subst e
      rw [List.filterMap_cons_some ha]
      have hnil : xs.filterMap f = [] := by
        rw [List.filterMap_eq_nil_iff]
        intro r hr
        exact hothers r (List.mem_cons_of_mem _ hr) (fun h => hx (h ▸ hr))
      rw [hnil]
    · have hfx : f x = none := hothers x (List.mem_cons_self _ _) e
      rw [List.filterMap_cons_none hfx]
      have ha' : a ∈ xs := by
        rcases List.mem_cons.mp hmem with h | h
        · exact absurd h.symm e
        · exact h
      exact ih ha' hxs (fun r hr => hothers r (List.mem_cons_of_mem _ hr))

/-- Both `registerColumn` and `unregisterColumn` keep the registry free of repetitions. -/
theorem registry_nodup (t : Registry Value Ctx) (column : Ref) (hnd : t.columns.Nodup) :
    (registerColumn t column).columns.Nodup ∧ (unregisterColumn t column).columns.Nodup := by
  constructor
  · unfold registerColumn
    split_ifs with h
    · exact hnd
    · show (t.columns ++ [column]).Nodup
      rw [List.nodup_append]
      refine ⟨hnd, List.nodup_singleton _, ?_⟩
      intro a ha hb
      rw [List.mem_singleton] at hb
      exact h (hb ▸ ha)
  · exact hnd.filter _

/-- C3: after `onColumnSort(C, e)` the sort of `C` is `asc` if `C` was unsorted, `desc`
if it was `asc` and `asc` if it was `desc`, for every registry and either value of the
modifier; so `C` is sorted afterwards, and stays sorted under any further interactions
with `C`. -/
theorem onColumnSort_toggle (t : Registry Value Ctx) (column : Ref) (shiftKey : Bool) :
    ((onColumnSort t column shiftKey).store column).sort
        = some (nextDirection (t.store column).sort)
    ∧ nextDirection none = Direction.asc
    ∧ nextDirection (some Direction.asc) = Direction.desc
    ∧ nextDirection (some Direction.desc) = Direction.asc
    ∧ isSorted ((onColumnSort t column shiftKey).store column) = true
    ∧ ∀ later : List Bool,
        isSorted ((later.foldl (fun t e => onColumnSort t column e)
          (onColumnSort t column shiftKey)).store column) = true := by
  have h1 : ∀ (t : Registry Value Ctx) (e : Bool),
      isSorted ((onColumnSort t column e).store column) = true := by
    intro t e
    rw [onColumnSort_store_self]
    rfl
  refine ⟨by rw [onColumnSort_store_self], rfl, rfl, rfl, h1 t shiftKey, ?_⟩
  intro later
  induction later generalizing t shiftKey with
  | nil => exact h1 t shiftKey
  | cons e later ih => exact ih (onColumnSort t column shiftKey) e

/-- C4: without the shift key, after `onColumnSort(C, e)` on a registered column `C`
every other registered column has `sort = null`, and the active sort-key list is the
single key of `C` with its toggled direction, whether `C` was sorted before or not. -/
theorem onColumnSort_single_key (t : Registry Value Ctx) (column : Ref)
    (hmem : column ∈ t.columns) (hnd : t.columns.Nodup) :
    (∀ r ∈ t.columns, r ≠ column → ((onColumnSort t column false).store r).sort = none)
    ∧ (onColumnSort t column false).columns = t.columns
    ∧ sortings (onColumnSort t column false).columnObjects
        = [{ prop := (t.store column).prop,
             direction := nextDirection (t.store column).sort }] := by
  have hothers : ∀ r ∈ t.columns, r ≠ column →
      ((onColumnSort t column false).store r).sort = none := by
    intro r hr hne
    rw [onColumnSort_store_other t column r hr hne]
  refine ⟨hothers, onColumnSort_columns t column false, ?_⟩
  unfold sortings Registry.columnObjects
  rw [List.filterMap_map, onColumnSort_columns]
  apply filterMap_eq_singleton _ column _ _ hmem hnd
  · simp only [Function.comp, onColumnSort_store_self]
  · intro r hr hne
    simp only [Function.comp, hothers r hr hne]

/-- C4 on the scenario registry: a plain click on the unsorted column `n` leaves `n asc`
as the only key, a plain click on the sorted column `v` leaves `v asc` as the only key. -/
theorem onColumnSort_single_key_witness :
    sortings scenarioRegistry.columnObjects = [⟨"v", Direction.desc⟩, ⟨"w", Direction.asc⟩]
    ∧ sortings (onColumnSort scenarioRegistry 0 false).columnObjects
        = [⟨"n", Direction.asc⟩]
    ∧ sortings (onColumnSort scenarioRegistry 1 false).columnObjects
        = [{ prop := (scenarioRegistry.store 1).prop,
             direction := nextDirection (scenarioRegistry.store 1).sort }] :=
  ⟨by decide, by decide,
    (onColumnSort_single_key scenarioRegistry 1 (by decide) (by decide)).2.2⟩

end Sorting

/-! ### Data resolution -/

section Resolution

variable {Row : Type}

/-- A continuation writes `resolvedData` and `isLoading` only. -/
theorem runContinuation_frame (s : Component Row) (k : Continuation) (o : Outcome Row) :
    (runContinuation s k o).data = s.data
    ∧ (runContinuation s k o).isDestroyed = s.isDestroyed
    ∧ (runContinuation s k o).continuations = s.continuations := by
  unfold runContinuation
  rcases o with v | _ <;> rcases k with p | p <;> dsimp only <;>
    split_ifs <;> exact ⟨rfl, rfl, rfl⟩

/-- Running a list of continuations writes `resolvedData` and `isLoading` only. -/
theorem foldl_runContinuation_frame (ks : List Continuation) (s : Component Row)
    (o : Outcome Row) :
    (ks.foldl (fun s k => runContinuation s k o) s).data = s.data
    ∧ (ks.foldl (fun s k => runContinuation s k o) s).isDestroyed = s.isDestroyed
    ∧ (ks.foldl (fun s k => runContinuation s k o) s).continuations = s.continuations := by
  induction ks generalizing s with
  | nil => exact ⟨rfl, rfl, rfl⟩
  | cons k ks ih =>
    obtain ⟨h1, h2, h3⟩ := runContinuation_frame s k o
    obtain ⟨g1, g2, g3⟩ := ih (runContinuation s k o)
    rw [List.foldl_cons]
    exact ⟨g1.trans h1, g2.trans h2, g3.trans h3⟩

/-- A settlement changes neither `data` nor `isDestroyed`, and detaches the
continuations of the settled promise. -/
theorem settle_frame (s : Component Row) (p : Nat) (o : Outcome Row) :
    (settle s p o).data = s.data
    ∧ (settle s p o).isDestroyed = s.isDestroyed
    ∧ (settle s p o).continuations = s.continuations.filter (fun k => k.promise != p) := by
  unfold settle
  obtain ⟨h1, h2, h3⟩ := foldl_runContinuation_frame
    (s.continuations.filter (fun k => k.promise == p))
    { s with continuations := s.continuations.filter (fun k => k.promise != p) } o
  exact ⟨h1, h2, h3⟩

/-- The continuation of a `data` promise that is no longer the current `data` leaves
`resolvedData` alone. -/
theorem runContinuation_stale (s : Component Row) (p q : Nat) (o : Outcome Row)
    (hdata : s.data = DataArg.pending q) (hne : p ≠ q) :
    (runContinuation s (Continuation.ofData p) o).resolvedData = s.resolvedData := by
  have hsame : (DataArg.pending p : DataArg Row).same s.data = false := by
    rw [hdata]
    simp [DataArg.same, hne]
  unfold runContinuation
  rcases o with v | _
  · simp only [hsame, Bool.false_and, Bool.false_eq_true, if_false]
    split_ifs <;> rfl
  · dsimp only
    split_ifs <;> rfl

/-- Any continuation of the promise that is the current `data`, fulfilled with `v` on
a live component, leaves `resolvedData = v`. -/
theorem runContinuation_current (s : Component Row) (k : Continuation) (q : Nat)
    (v : List Row) (hdata : s.data = DataArg.pending q) (hlive : s.isDestroyed = false)
    (hk : k.promise = q) :
    (runContinuation s k (Outcome.fulfilled v)).resolvedData = v := by
  unfold runContinuation
  rcases k with p | p
  · have hp : p = q := hk
    subst hp
    simp [hdata, hlive, DataArg.same]
  · simp [hlive]

/-- Continuations of stale `data` promises, run in a row, leave `resolvedData` alone. -/
theorem foldl_stale (ks : List Continuation) (s : Component Row) (p q : Nat)
    (o : Outcome Row) (hdata : s.data = DataArg.pending q) (hne : p ≠ q)
    (hks : ∀ k ∈ ks, k = Continuation.ofData p) :
    (ks.foldl (fun s k => runContinuation s k o) s).resolvedData = s.resolvedData := by
  induction ks generalizing s with
  | nil => rfl
  | cons k ks ih =>
    rw [List.foldl_cons]
    have hk : k = Continuation.ofData p := hks k (List.mem_cons_self _ _)
    subst hk
    rw [ih _ (by rw [(runContinuation_frame s _ o).1]; exact hdata)
      (fun k hk => hks k (List.mem_cons_of_mem _ hk))]
    exact runContinuation_stale s p q o hdata hne

/-- Continuations of the current `data` promise, run in a row with the value `v` on a
live component, leave `resolvedData = v` as soon as there is one of them. -/
theorem foldl_current (ks : List Continuation) (s : Component Row) (q : Nat) (v : List Row)
    (hdata : s.data = DataArg.pending q) (hlive : s.isDestroyed = false)
    (hks : ∀ k ∈ ks, k.promise = q) (hne : ks ≠ []) :
    (ks.foldl (fun s k => runContinuation s k (Outcome.fulfilled v)) s).resolvedData = v := by
  induction ks generalizing s with
  | nil => exact absurd rfl hne
  | cons k ks ih =>
    rw [List.foldl_cons]
    obtain ⟨f1, f2, _⟩ := runContinuation_frame s k (Outcome.fulfilled v)
    by_cases hnil : ks = []
    · subst hnil
      exact runContinuation_current s k q v hdata hlive (hks k (List.mem_cons_self _ _))
    · exact ih _ (f1.trans hdata) (f2.trans hlive)
        (fun k hk => hks k (List.mem_cons_of_mem _ hk)) hnil

/-- While a promise `q` is the current `data`, the settlement of another promise `p`
to which no loader continuation is attached leaves `resolvedData` alone. -/
theorem settle_stale (s : Component Row) (p q : Nat) (o : Outcome Row)
    (hdata : s.data = DataArg.pending q) (hne : p ≠ q)
    (hload : Continuation.ofLoad p ∉ s.continuations) :
    (settle s p o).resolvedData = s.resolvedData := by
  show ((s.continuations.filter (fun k => k.promise == p)).foldl
    (fun s k => runContinuation s k o)
    { s with continuations := s.continuations.filter (fun k => k.promise != p) }).resolvedData
      = s.resolvedData
  apply foldl_stale _
    { s with continuations := s.continuations.filter (fun k => k.promise != p) } p q o hdata hne
  intro k hk
  obtain ⟨hmem, hp⟩ := List.mem_filter.mp hk
  rcases k with r | r
  · have : r = p := by simpa [Continuation.promise] using hp
    rw [this]
  · have : r = p := by simpa [Continuation.promise] using hp
    subst this
    exact absurd hmem hload

/-- On a live component, the fulfilment of the promise that is the current `data`, with
a continuation attached, commits its value. -/
theorem settle_current (s : Component Row) (q : Nat) (v : List Row)
    (hdata : s.data = DataArg.pending q) (hlive : s.isDestroyed = false)
    (hk : Continuation.ofData q ∈ s.continuations) :
    (settle s q (Outcome.fulfilled v)).resolvedData = v := by
  show ((s.continuations.filter (fun k => k.promise == q)).foldl
    (fun s k => runContinuation s k (Outcome.fulfilled v))
    { s with continuations := s.continuations.filter (fun k => k.promise != q) }).resolvedData
      = v
  apply foldl_current _
    { s with continuations := s.continuations.filter (fun k => k.promise != q) } q v hdata hlive
  · intro k hk
    simpa using (List.mem_filter.mp hk).2
  · intro hnil
    have : Continuation.ofData q ∈ s.continuations.filter (fun k => k.promise == q) :=
      List.mem_filter.mpr ⟨hk, by simp [Continuation.promise]⟩
    rw [hnil] at this
    cases this

/-- Receiving a promise as `data`: it becomes the current and the remembered `data`,
`resolvedData` is kept, and a continuation is attached unless the same promise was
already the remembered `data`. -/
theorem receive_pending (s : Component Row) (q : Nat) :
    (step s (Event.receive (DataArg.pending q))).data = DataArg.pending q
    ∧ (step s (Event.receive (DataArg.pending q))).oldData = DataArg.pending q
    ∧ (step s (Event.receive (DataArg.pending q))).isDestroyed = s.isDestroyed
    ∧ (step s (Event.receive (DataArg.pending q))).resolvedData = s.resolvedData
    ∧ (step s (Event.receive (DataArg.pending q))).continuations
        = if (DataArg.pending q : DataArg Row).same s.oldData then s.continuations
          else s.continuations ++ [Continuation.ofData q] := by
  simp only [step, didReceiveAttrs]
  cases h : (DataArg.pending q : DataArg Row).same s.oldData <;> simp

/-- C5: two promises `p1` then `p2` are passed as `data` to a live component (no
loader continuation waits on `p1`). Whenever `p2` is the current `data`, a settlement
of `p1` leaves `resolvedData` as it is; in particular right after `p2` was supplied.
After both have settled, `p2` with the value `v2`, in either order, `resolvedData` is
`v2`. -/
theorem data_race_safe (s : Component Row) (p1 p2 : Nat) (o1 : Outcome Row) (v2 : List Row)
    (hne : p1 ≠ p2) (hlive : s.isDestroyed = false)
    (hload : Continuation.ofLoad p1 ∉ s.continuations) :
    (∀ u : Component Row, u.data = DataArg.pending p2 →
        Continuation.ofLoad p1 ∉ u.continuations →
        (settle u p1 o1).resolvedData = u.resolvedData)
    ∧ (run s [Event.receive (DataArg.pending p1), Event.receive (DataArg.pending p2),
          Event.settled p1 o1]).resolvedData
        = (run s [Event.receive (DataArg.pending p1),
            Event.receive (DataArg.pending p2)]).resolvedData
    ∧ (run s [Event.receive (DataArg.pending p1), Event.receive (DataArg.pending p2),
          Event.settled p1 o1, Event.settled p2 (Outcome.fulfilled v2)]).resolvedData = v2
    ∧ (run s [Event.receive (DataArg.pending p1), Event.receive (DataArg.pending p2),
          Event.settled p2 (Outcome.fulfilled v2), Event.settled p1 o1]).resolvedData
        = v2 := by
  simp only [run, List.foldl_cons, List.foldl_nil]
  obtain ⟨_, a2, a3, _, a5⟩ := receive_pending s p1
  generalize step s (Event.receive (DataArg.pending p1)) = s1 at a2 a3 a5 ⊢
  obtain ⟨b1, _, b3, _, b5⟩ := receive_pending s1 p2
  have hsame : (DataArg.pending p2 : DataArg Row).same s1.oldData = false := by
    rw [a2]
    simp [DataArg.same, Ne.symm hne]
  rw [hsame] at b5
  have hload1 : Continuation.ofLoad p1 ∉ s1.continuations := by
    rw [a5]
    split_ifs <;> simp [hload]
  generalize step s1 (Event.receive (DataArg.pending p2)) = s2 at b1 b3 b5 ⊢
  have hlive2 : s2.isDestroyed = false := by rw [b3, a3, hlive]
  have hload2 : Continuation.ofLoad p1 ∉ s2.continuations := by
    rw [b5]
    simp [hload1]
  have hk2 : Continuation.ofData p2 ∈ s2.continuations := by
    rw [b5]
    simp
  have stale := fun (u : Component Row) (hu : u.data = DataArg.pending p2)
      (hl : Continuation.ofLoad p1 ∉ u.continuations) =>
    settle_stale u p1 p2 o1 hu hne hl
  refine ⟨stale, ?_, ?_, ?_⟩
  · exact stale s2 b1 hload2
  · obtain ⟨c1, c2, c3⟩ := settle_frame s2 p1 o1
    apply settle_current (settle s2 p1 o1) p2 v2 (c1.trans b1) (c2.trans hlive2)
    rw [c3]
    exact List.mem_filter.mpr ⟨hk2, by simp [Continuation.promise, Ne.symm hne]⟩
  · obtain ⟨c1, _, c3⟩ := settle_frame s2 p2 (Outcome.fulfilled v2)
    have hv : (settle s2 p2 (Outcome.fulfilled v2)).resolvedData = v2 :=
      settle_current s2 p2 v2 b1 hlive2 hk2
    have := stale (settle s2 p2 (Outcome.fulfilled v2)) (c1.trans b1)
      (by rw [c3]; intro h; exact hload2 (List.mem_filter.mp h).1)
    exact this.trans hv

/-- C5 on a fresh component: promises `1` then `2` are passed, `2` is fulfilled with
`["new"]` and `1` with `["old"]`; in both orders `resolvedData` ends as `["new"]`. -/
theorem data_race_safe_witness :
    (run (Component.initial String false)
        [Event.receive (DataArg.pending 1), Event.receive (DataArg.pending 2),
          Event.settled 1 (Outcome.fulfilled ["old"]),
          Event.settled 2 (Outcome.fulfilled ["new"])]).resolvedData = ["new"]
    ∧ (run (Component.initial String false)
        [Event.receive (DataArg.pending 1), Event.receive (DataArg.pending 2),
          Event.settled 2 (Outcome.fulfilled ["new"]),
          Event.settled 1 (Outcome.fulfilled ["old"])]).resolvedData = ["new"] :=
  ⟨(data_race_safe (Component.initial String false) 1 2 (Outcome.fulfilled ["old"]) ["new"]
      (by decide) rfl (by decide)).2.2.1,
   (data_race_safe (Component.initial String false) 1 2 (Outcome.fulfilled ["old"]) ["new"]
      (by decide) rfl (by decide)).2.2.2⟩

/-- C6 (code evaluated at the failing input): the loader is called twice and returns
the promises `1` then `2`. When `1` is fulfilled after the second call, its rows are
committed; when `2` is fulfilled first and `1` afterwards, `resolvedData` ends as the
rows of the superseded call `1`. The same settlements of two `data` promises end with
the rows of `2`. -/
theorem load_race_unguarded :
    (run (Component.initial String true)
        [Event.load (LoadResult.pending 1), Event.load (LoadResult.pending 2),
          Event.settled 1 (Outcome.fulfilled ["L1"])]).resolvedData = ["L1"]
    ∧ (run (Component.initial String true)
        [Event.load (LoadResult.pending 1), Event.load (LoadResult.pending 2),
          Event.settled 2 (Outcome.fulfilled ["L2"]),
          Event.settled 1 (Outcome.fulfilled ["L1"])]).resolvedData = ["L1"]
    ∧ (run (Component.initial String true)
        [Event.load (LoadResult.pending 1), Event.load (LoadResult.pending 2),
          Event.settled 1 (Outcome.fulfilled ["L1"]),
          Event.settled 2 (Outcome.fulfilled ["L2"])]).resolvedData = ["L2"]
    ∧ (run (Component.initial String true)
        [Event.receive (DataArg.pending 1), Event.receive (DataArg.pending 2),
          Event.settled 2 (Outcome.fulfilled ["L2"]),
          Event.settled 1 (Outcome.fulfilled ["L1"])]).resolvedData = ["L2"] := by
  decide

end Resolution

/-! ### Pagination: end of the window, page range, invalid configurations -/

/-- On a page that is full within `totalRows` the end of the window is the index of its
last row, `pageStart + pageSize - 1`, which is at most `totalRows - 1`. -/
theorem pageEnd_of_full_page (pageSize pageNumber rows : Int) (hrows : rows ≠ 0)
    (hfull : pageNumber * pageSize ≤ rows) :
    (paginationData pageSize pageNumber (some rows)).pageEnd
        = (pageNumber - 1) * pageSize + pageSize - 1
    ∧ (paginationData pageSize pageNumber (some rows)).pageEnd
        = min ((pageNumber - 1) * pageSize + pageSize - 1) (rows - 1) := by
  have e : (pageNumber - 1) * pageSize + pageSize - 1 = pageNumber * pageSize - 1 := by ring
  rw [paginationData_truthy _ _ _ hrows]
  simp only [e]
  constructor <;> omega

/-- On a page that reaches beyond `totalRows` the end of the window is `totalRows`,
one more than the index `totalRows - 1` of the last row. -/
theorem pageEnd_of_partial_page (pageSize pageNumber rows : Int) (hrows : rows ≠ 0)
    (hpart : rows < pageNumber * pageSize) :
    (paginationData pageSize pageNumber (some rows)).pageEnd = rows := by
  have e : (pageNumber - 1) * pageSize + pageSize - 1 = pageNumber * pageSize - 1 := by ring
  rw [paginationData_truthy _ _ _ hrows]
  simp only [e]
  omega

/-- C11 (code evaluated at the failing input): with `pageSize = 2`, `pageNumber = 2`
(the last of 2 pages) and `totalRows = 3`, `pageEnd` is `3`, while the index of the last
row is `min (2 + 2 - 1) (3 - 1) = 2`; the window `2..3` spans two rows where
`min 2 (3 - 2) = 1` row is left, and `pagedData` hands out rows `2` and `3` of a list
that has more rows than `totalRows`. -/
theorem pageEnd_last_page_off_by_one :
    (paginationData 2 2 (some 3)).totalPages = some 2
    ∧ (paginationData 2 2 (some 3)).pageStart = 2
    ∧ (paginationData 2 2 (some 3)).pageEnd = 3
    ∧ min ((paginationData 2 2 (some 3)).pageStart + 2 - 1) (3 - 1) = 2
    ∧ (paginationData 2 2 (some 3)).pageEnd - (paginationData 2 2 (some 3)).pageStart + 1 = 2
    ∧ min (2 : Int) (3 - (paginationData 2 2 (some 3)).pageStart) = 1
    ∧ pagedData true [0, 1, 2, 3, 4] (paginationData 2 2 (some 3)) = [2, 3] := by
  decide

/-- Before the last page the window ends below `totalRows - 1`, and no window is longer
than `pageSize`. -/
theorem window_before_last_page (pageSize pageNumber rows : Int) (hps : 0 < pageSize)
    (hrows : rows ≠ 0) (hlt : pageNumber < ceilDiv rows pageSize) :
    (paginationData pageSize pageNumber (some rows)).pageStart + pageSize
        ≥ (paginationData pageSize pageNumber (some rows)).pageEnd + 1
    ∧ (paginationData pageSize pageNumber (some rows)).pageEnd < rows := by
  have hb := (ceilDiv_bounds rows pageSize hps).1
  have h1 : pageNumber * pageSize ≤ (ceilDiv rows pageSize - 1) * pageSize :=
    Int.mul_le_mul_of_nonneg_right (by omega) (le_of_lt hps)
  have e : (pageNumber - 1) * pageSize + pageSize - 1 = pageNumber * pageSize - 1 := by ring
  rw [paginationData_truthy _ _ _ hrows]
  simp only [e]
  constructor <;> omega

/-- C19 (code evaluated at the failing inputs): page 3 of a table of 3 rows in pages of
2 is not the last page (`isLastPage` is `false`, there are 2 pages), and its window
ends at `pageEnd = 3`, which is not below `totalRows = 3`; with the known row count
`0`, page 1 is not the last page (`isLastPage` is undefined) and `pageEnd = 0` is not
below `totalRows = 0`. -/
theorem window_not_below_totalRows :
    (paginationData 2 3 (some 3)).isLastPage = some false
    ∧ (paginationData 2 3 (some 3)).totalPages = some 2
    ∧ (paginationData 2 3 (some 3)).pageEnd = 3
    ∧ ¬ ((paginationData 2 3 (some 3)).pageEnd < 3)
    ∧ (paginationData 1 1 (some 0)).isLastPage = none
    ∧ (paginationData 1 1 (some 0)).pageEnd = 0
    ∧ ¬ ((paginationData 1 1 (some 0)).pageEnd < 0) := by
  decide

/-- C18 (counterexample): with `pageSize = -5` and `pageNumber = 0` the getter returns
a window (`pageStart = 5`, `pageEnd = -1`) and no error, so it is not true that every
configuration with `pageSize ≤ 0` or `pageNumber < 1` ends in an error. -/
theorem paginationData_invalid_not_rejected :
    paginationDataResult (-5) 0 none
      = Except.ok { pageSize := -5, pageNumber := 0, pageStart := 5, pageEnd := -1,
                    isFirstPage := false, isLastPage := none, totalRows := none,
                    totalPages := none }
    ∧ ¬ (∀ pageSize pageNumber totalRows, pageSize ≤ 0 ∨ pageNumber < 1 →
          ∃ e, paginationDataResult pageSize pageNumber totalRows = Except.error e) := by
  refine ⟨congrArg Except.ok (by decide), ?_⟩
  intro h
  obtain ⟨e, he⟩ := h (-5) 0 none (Or.inl (by decide))
  cases he

/-- C18 (amended): the getter never fails. For every `pageSize` and `pageNumber`, also
`pageSize ≤ 0` or `pageNumber < 1`, it returns a window with
`pageStart = (pageNumber - 1) * pageSize` and `isFirstPage = (pageNumber == 1)`, and
without `totalRows` with `pageEnd = pageStart + pageSize - 1`. -/
theorem paginationData_always_returns (pageSize pageNumber : Int) (totalRows : Option Int) :
    (∃ w, paginationDataResult pageSize pageNumber totalRows = Except.ok w
        ∧ w.pageStart = (pageNumber - 1) * pageSize
        ∧ w.isFirstPage = decide (pageNumber = 1)
        ∧ w.pageSize = pageSize ∧ w.pageNumber = pageNumber)
    ∧ (paginationDataResult pageSize pageNumber none
        = Except.ok { pageSize := pageSize, pageNumber := pageNumber,
                      pageStart := (pageNumber - 1) * pageSize,
                      pageEnd := (pageNumber - 1) * pageSize + pageSize - 1,
                      isFirstPage := decide (pageNumber = 1), isLastPage := none,
                      totalRows := none, totalPages := none }) := by
  refine ⟨⟨paginationData pageSize pageNumber totalRows, rfl, ?_⟩, ?_⟩
  · rcases totalRows with _ | r
    · simp [paginationData_none]
    · by_cases h : r = 0
      · subst h; simp [paginationData_zero]
      · simp [paginationData_truthy _ _ _ h]
  · simp [paginationDataResult, paginationData_none]

/-- With pagination disabled no page action changes anything. -/
theorem page_actions_disabled (s : Paging) (n : Int) (hp : s.pagination = false) :
    previousPage s = s ∧ nextPage s = s ∧ goToPage s n = s ∧ changePageSize s n = s := by
  simp [previousPage, nextPage, goToPage, changePageSize, hp]

/-- C20: with pagination enabled, `pageSize > 0` and `totalRows ≥ 1`, the range
`1 ≤ pageNumber ≤ totalPages` is kept by `previousPage`, `nextPage` and `goToPage n`
for every integer `n`, while `pageSize` and `totalRows` stay fixed; with pagination
disabled these actions and `changePageSize` leave the state as it is. -/
theorem page_range_invariant (s : Paging) (n rows : Int) (hps : 0 < s.pageSize)
    (hrows : s.totalRows = some rows) (hpos : 1 ≤ rows)
    (hlo : 1 ≤ s.pageNumber) (hhi : s.pageNumber ≤ ceilDiv rows s.pageSize) :
    s.paginationData.totalPages = some (ceilDiv rows s.pageSize)
    ∧ (s.pagination = true →
        (1 ≤ (previousPage s).pageNumber
          ∧ (previousPage s).pageNumber ≤ ceilDiv rows s.pageSize
          ∧ (previousPage s).pageSize = s.pageSize ∧ (previousPage s).totalRows = s.totalRows)
        ∧ (1 ≤ (nextPage s).pageNumber
          ∧ (nextPage s).pageNumber ≤ ceilDiv rows s.pageSize
          ∧ (nextPage s).pageSize = s.pageSize ∧ (nextPage s).totalRows = s.totalRows)
        ∧ (1 ≤ (goToPage s n).pageNumber
          ∧ (goToPage s n).pageNumber ≤ ceilDiv rows s.pageSize
          ∧ (goToPage s n).pageSize = s.pageSize ∧ (goToPage s n).totalRows = s.totalRows))
    ∧ (s.pagination = false →
        previousPage s = s ∧ nextPage s = s ∧ goToPage s n = s ∧ changePageSize s n = s) := by
  have hne : rows ≠ 0 := by omega
  have htp := ceilDiv_pos rows s.pageSize (by omega) hps
  have hpd := paginationData_truthy s.pageSize s.pageNumber rows hne
  have htr : truthy (some (ceilDiv rows s.pageSize)) = true := by
    simp [truthy]; omega
  refine ⟨by simp [Paging.paginationData, hrows, hpd], ?_, page_actions_disabled s n⟩
  intro hp
  refine ⟨?_, ?_, ?_⟩
  · simp only [previousPage, hp, if_true, Paging.paginationData, hrows, hpd]
    refine ⟨?_, ?_, ?_, ?_⟩ <;> first | exact trivial | rfl | omega
  · simp only [nextPage, hp, if_true, Paging.paginationData, hrows, hpd]
    by_cases hlast : s.pageNumber = ceilDiv rows s.pageSize
    · simp only [hlast, decide_True, bne_self_eq_false, Bool.false_eq_true, if_false]
      refine ⟨?_, ?_, ?_, ?_⟩ <;> first | exact trivial | rfl | exact hrows | omega
    · have hb : (some (decide (s.pageNumber = ceilDiv rows s.pageSize)) != some true) = true := by
        simp [hlast]
      simp only [hb, if_true]
      refine ⟨?_, ?_, ?_, ?_⟩ <;> first | exact trivial | rfl | omega
  · simp only [goToPage, hp, if_true, Paging.paginationData, hrows, hpd, htr]
    refine ⟨?_, ?_, ?_, ?_⟩ <;> first | exact trivial | rfl | omega

/-- C20 on 12 rows in pages of 5 (3 pages): from page 3, `nextPage` stays on page 3 and
`goToPage 99` lands on page 3; from page 1, `previousPage` stays on page 1. -/
theorem page_range_invariant_witness :
    nextPage ⟨true, 5, 3, some 12⟩ = ⟨true, 5, 3, some 12⟩
    ∧ goToPage ⟨true, 5, 3, some 12⟩ 99 = ⟨true, 5, 3, some 12⟩
    ∧ previousPage ⟨true, 5, 1, some 12⟩ = ⟨true, 5, 1, some 12⟩
    ∧ (Paging.paginationData ⟨true, 5, 3, some 12⟩).totalPages = some (ceilDiv 12 5) :=
  ⟨by decide, by decide, by decide,
    (page_range_invariant ⟨true, 5, 3, some 12⟩ 99 12 (by decide) rfl (by decide)
      (by decide) (by decide)).1⟩

/-! ### Sorting with the shift key, table-level filter function, concrete data -/

section Extend

variable {Row Value Ctx : Type}

/-- With the shift key the action is a single write to the column acted on. -/
theorem onColumnSort_shift (t : Registry Value Ctx) (column : Ref) :
    onColumnSort t column true
      = t.setSort column (some (nextDirection (t.store column).sort)) := by
  unfold onColumnSort
  rcases hs : (t.store column).sort with _ | d
  · simp [isSorted, hs, nextDirection]
  · cases d <;> simp [isSorted, hs, nextDirection]

/-- C12: with the shift key, after `onColumnSort(C, e)` every column object other than
`C` is as before, in particular its `sort`; the registry is as before; and the active
sort keys of the registered columns other than `C`, in registry order, are the same
before and after. -/
theorem onColumnSort_extend_keeps_others (t : Registry Value Ctx) (column : Ref) :
    (∀ r, r ≠ column → (onColumnSort t column true).store r = t.store r)
    ∧ (∀ r, r ≠ column → ((onColumnSort t column true).store r).sort = (t.store r).sort)
    ∧ (onColumnSort t column true).columns = t.columns
    ∧ sortings (((onColumnSort t column true).columns.filter (fun r => r != column)).map
          (onColumnSort t column true).store)
        = sortings ((t.columns.filter (fun r => r != column)).map t.store) := by
  have hstore : ∀ r, r ≠ column → (onColumnSort t column true).store r = t.store r := by
    intro r hne
    rw [onColumnSort_shift, setSort_store_other _ _ _ _ hne]
  refine ⟨hstore, ?_, onColumnSort_columns t column true, ?_⟩
  · intro r hne
    rw [hstore r hne]
  · rw [onColumnSort_columns]
    congr 1
    apply List.map_congr_left
    intro r hr
    have hne : r ≠ column := by
      have := (List.mem_filter.mp hr).2
      simpa using this
    exact hstore r hne

/-- The verdict of the general filter reads only `prop` and `filterable` of the columns. -/
theorem any_general_congr (test : Value → Bool) (getProp : Row → String → Value)
    (columns₁ columns₂ : List (Column Value Ctx)) (row : Row)
    (hagree : columns₁.map (fun c => (c.prop, c.filterable))
      = columns₂.map (fun c => (c.prop, c.filterable))) :
    columns₁.any (fun c => c.filterable && test (getProp row c.prop))
      = columns₂.any (fun c => c.filterable && test (getProp row c.prop)) := by
  have h : ∀ columns : List (Column Value Ctx),
      columns.any (fun c => c.filterable && test (getProp row c.prop))
        = (columns.map (fun c => (c.prop, c.filterable))).any
            (fun q => q.2 && test (getProp row q.1)) := by
    intro columns
    induction columns with
    | nil => rfl
    | cons c cs ih => simp only [List.any_cons, List.map_cons, ih]
  rw [h columns₁, h columns₂, hagree]

/-- C13: with a table-level `filterFunction` set and a filterable column, two registries
that agree, column by column, on `prop` and `filterable` give the same `filteredData`,
whatever the columns' own `filter`, `filterFunction` and `filterUsing` are: the rows that
pass the general filter and `filterFunction(row, filterUsing)`. -/
theorem filteredData_table_function (compileGeneral compileColumn : String → Value → Bool)
    (getProp : Row → String → Value) (columns₁ columns₂ : List (Column Value Ctx))
    (filter : Option String) (tableFn : Row → Ctx → Bool) (filterUsing : Ctx)
    (resolvedData : List Row) (hcol : ∃ c ∈ columns₁, c.filterable = true)
    (hagree : columns₁.map (fun c => (c.prop, c.filterable))
      = columns₂.map (fun c => (c.prop, c.filterable))) :
    filteredData compileGeneral compileColumn getProp columns₁ filter (some tableFn)
        filterUsing resolvedData
      = filteredData compileGeneral compileColumn getProp columns₂ filter (some tableFn)
          filterUsing resolvedData
    ∧ filteredData compileGeneral compileColumn getProp columns₁ filter (some tableFn)
        filterUsing resolvedData
      = resolvedData.filter (fun row =>
          (match filter with
            | none => true
            | some text => text == "" ||
                columns₁.any (fun c => c.filterable && compileGeneral text (getProp row c.prop)))
          && tableFn row filterUsing) := by
  have hcol₂ : ∃ c ∈ columns₂, c.filterable = true := by
    obtain ⟨c, hc, hf⟩ := hcol
    have hm : (c.prop, c.filterable) ∈ columns₂.map (fun c => (c.prop, c.filterable)) := by
      rw [← hagree]
      exact List.mem_map_of_mem _ hc
    obtain ⟨d, hd, hdc⟩ := List.mem_map.mp hm
    refine ⟨d, hd, ?_⟩
    have : d.filterable = c.filterable := congrArg Prod.snd hdc
    rw [this, hf]
  have h₁ := filteredData_eq_filter compileGeneral compileColumn getProp columns₁ filter
    (some tableFn) filterUsing resolvedData hcol
  have h₂ := filteredData_eq_filter compileGeneral compileColumn getProp columns₂ filter
    (some tableFn) filterUsing resolvedData hcol₂
  refine ⟨?_, ?_⟩
  · rw [h₁, h₂]
    apply List.filter_congr
    intro row _
    unfold admitted
    congr 1
    rcases filter with _ | text
    · rfl
    · dsimp only
      rw [any_general_congr (compileGeneral text) getProp columns₁ columns₂ row hagree]
  · rw [h₁]
    apply List.filter_congr
    intro row _
    unfold admitted
    cases filter <;> rfl

/-- C13 on the scenario rows, with a table-level function keeping the rows whose `v` is
not `"1"`: a column `n` filtered by `"zzz"` and a column `n` without filter give the same
rows. -/
theorem filteredData_table_function_witness :
    filteredData scenarioMatch scenarioMatch scenarioGet [scenarioColumn true (some "zzz")]
        none (some (fun row _ => row.2 != "1")) () scenarioRows
      = filteredData scenarioMatch scenarioMatch scenarioGet [scenarioColumn true none]
          none (some (fun row _ => row.2 != "1")) () scenarioRows
    ∧ filteredData scenarioMatch scenarioMatch scenarioGet [scenarioColumn true (some "zzz")]
        none (some (fun row _ => row.2 != "1")) () scenarioRows = [("b", "2"), ("a", "0")] :=
  ⟨(filteredData_table_function scenarioMatch scenarioMatch scenarioGet
      [scenarioColumn true (some "zzz")] [scenarioColumn true none] none
      (fun row _ => row.2 != "1") () scenarioRows
      ⟨scenarioColumn true (some "zzz"), List.mem_singleton.mpr rfl, rfl⟩ rfl).1,
   by decide⟩

/-- C14 (counterexample): a promise is passed as `data` and, before it settles, an array;
right after the array was received `resolvedData` is the array and `isLoading` is still
`true`. -/
theorem concrete_input_isLoading_stays :
    (run (Component.initial String false)
        [Event.receive (DataArg.pending 1), Event.receive (DataArg.rows 7 ["a"])]).resolvedData
      = ["a"]
    ∧ (run (Component.initial String false)
        [Event.receive (DataArg.pending 1), Event.receive (DataArg.rows 7 ["a"])]).isLoading
      = true := by
  decide

/-- C14 (amended): in every state, so after every sequence of events, right after a new
`data` (not the same reference as the previous one) that is an array or absent was
received, `resolvedData` is that array, `[]` when absent, and `isLoading` has the value
it had before. -/
theorem concrete_input_committed (s : Component Row) (data : DataArg Row)
    (hconcrete : ∀ p, data ≠ DataArg.pending p) (hnew : data.same s.oldData = false) :
    (step s (Event.receive data)).resolvedData
        = (match data with
          | DataArg.rows _ items => items
          | _ => [])
    ∧ (step s (Event.receive data)).isLoading = s.isLoading := by
  rcases data with _ | ⟨ref, items⟩ | p
  · simp [step, didReceiveAttrs, hnew]
  · simp [step, didReceiveAttrs, hnew]
  · exact absurd rfl (hconcrete p)

/-- C14 (amended) after a promise was received: the array received next is committed,
and `isLoading`, `true` before, is `true` after. -/
theorem concrete_input_committed_witness :
    (step (run (Component.initial String false) [Event.receive (DataArg.pending 1)])
        (Event.receive (DataArg.rows 7 ["a"]))).resolvedData = ["a"]
    ∧ (step (run (Component.initial String false) [Event.receive (DataArg.pending 1)])
        (Event.receive (DataArg.rows 7 ["a"]))).isLoading
      = (run (Component.initial String false) [Event.receive (DataArg.pending 1)]).isLoading :=
  concrete_input_committed
    (run (Component.initial String false) [Event.receive (DataArg.pending 1)])
    (DataArg.rows 7 ["a"]) (by intro p h; cases h) (by decide)

end Extend

/-! ### Request descriptor -/

section Descriptor

variable {Value Ctx : Type}

/-- The sort entries of the descriptor are the active sort keys of the sort stage, with
the direction as the column holds it. -/
theorem sortData_eq_sortings (columns : List (Column Value Ctx)) :
    (columns.filter (fun c => c.sort.isSome)).map
        (fun c => ({ prop := c.prop, direction := c.sort } : SortEntry))
      = (sortings columns).map (fun k => { prop := k.prop, direction := some k.direction }) := by
  induction columns with
  | nil => rfl
  | cons c cs ih =>
    unfold sortings at ih ⊢
    rcases hs : c.sort with _ | d
    · rw [List.filter_cons_of_neg (by simp [hs]), List.filterMap_cons_none (by simp [hs])]
      exact ih
    · rw [List.filter_cons_of_pos (by simp [hs]), List.map_cons,
        List.filterMap_cons_some (b := { prop := c.prop, direction := d }) (by simp [hs]),
        List.map_cons, ih, hs]

/-- C16: the descriptor handed to `loadData` holds `paginationData` exactly when
pagination is enabled, and then the current window; `sortData` is the list of
`{prop, direction}` of the columns with a non-empty sort in registry order, the key list
of the sort stage; `filterData` holds `filter`, `filterUsing` and one
`{filter, filterUsing}` entry per registered column, in registry order. -/
theorem loadParam_shape (pagination : Bool) (pd : PaginationData)
    (columns : List (Column Value Ctx)) (filter : Option String) (filterUsing : Ctx) :
    ((loadParam pagination pd columns filter filterUsing).paginationData.isSome = pagination)
    ∧ (loadParam true pd columns filter filterUsing).paginationData = some pd
    ∧ (loadParam false pd columns filter filterUsing).paginationData = none
    ∧ (loadParam pagination pd columns filter filterUsing).sortData
        = (sortings columns).map (fun k => { prop := k.prop, direction := some k.direction })
    ∧ (loadParam pagination pd columns filter filterUsing).filterData.filter = filter
    ∧ (loadParam pagination pd columns filter filterUsing).filterData.filterUsing = filterUsing
    ∧ (loadParam pagination pd columns filter filterUsing).filterData.columnFilters.length
        = columns.length
    ∧ ∀ i : Nat,
        (loadParam pagination pd columns filter filterUsing).filterData.columnFilters[i]?
          = (columns[i]?).map
              (fun c => ({ filter := c.filter, filterUsing := c.filterUsing } : ColumnFilter Ctx)) := by
  refine ⟨?_, rfl, rfl, sortData_eq_sortings columns, rfl, rfl, ?_, ?_⟩
  · cases pagination <;> rfl
  · simp [loadParam]
  · intro i
    simp [loadParam, List.getElem?_map]

end Descriptor

/-! ### Sort stage -/

section SortStage

variable {α : Type}

/-- The consequences of the two comparator laws used below. -/
theorem IsComparator.facts {compare : α → α → Int} (h : IsComparator compare) :
    (∀ a b, ¬ compare a b ≤ 0 → compare b a ≤ 0)
    ∧ (∀ a b, compare a b = 0 → compare b a = 0)
    ∧ (∀ a b c, compare a b < 0 → compare b c ≤ 0 → compare a c < 0)
    ∧ (∀ a b c, compare a b ≤ 0 → compare b c < 0 → compare a c < 0)
    ∧ (∀ a b c, compare a b = 0 → compare b c = 0 → compare a c = 0) := by
  have hzero : ∀ a b, compare a b = 0 → compare b a = 0 := by
    intro a b hab
    have h1 := h.swap a b
    have h2 := h.swap b a
    omega
  have hlt1 : ∀ a b c, compare a b < 0 → compare b c ≤ 0 → compare a c < 0 := by
    intro a b c hab hbc
    have hac := h.trans a b c (le_of_lt hab) hbc
    rcases lt_or_eq_of_le hac with hlt | heq
    · exact hlt
    · have hca := hzero a c heq
      have hba := h.trans b c a hbc (le_of_eq hca)
      have := (h.swap a b).mp hab
      omega
  have hlt2 : ∀ a b c, compare a b ≤ 0 → compare b c < 0 → compare a c < 0 := by
    intro a b c hab hbc
    have hac := h.trans a b c hab (le_of_lt hbc)
    rcases lt_or_eq_of_le hac with hlt | heq
    · exact hlt
    · have hca := hzero a c heq
      have hcb := h.trans c a b (le_of_eq hca) hab
      have := (h.swap b c).mp hbc
      omega
  refine ⟨?_, hzero, hlt1, hlt2, ?_⟩
  · intro a b hab
    have := (h.swap b a).mpr (by omega)
    omega
  · intro a b c hab hbc
    have h1 := h.trans a b c (le_of_eq hab) (le_of_eq hbc)
    have h2 := h.trans c b a (le_of_eq (hzero b c hbc)) (le_of_eq (hzero a b hab))
    have h3 := h.swap a c
    omega

/-- Merging with an empty right side. -/
theorem merge_nil_right (left : List α) (comparator : α → α → Int) :
    merge left [] comparator = left := by
  cases left <;> simp [merge]

/-- Merging keeps the elements of both sides. -/
theorem merge_perm (comparator : α → α → Int) :
    ∀ left right : List α, (merge left right comparator).Perm (left ++ right)
  | [], right => by simp [merge]
  | a :: left, [] => by simp [merge]
  | a :: left, b :: right => by
    rw [merge]
    split_ifs
    · exact (merge_perm comparator left (b :: right)).cons a
    · have hmid : (a :: left ++ b :: right).Perm (b :: (a :: left ++ right)) :=
        List.perm_middle
      exact ((merge_perm comparator (a :: left) right).cons b).trans hmid.symm
termination_by left right => left.length + right.length

/-- Merging two ordered lists gives an ordered list. -/
theorem merge_sorted {comparator : α → α → Int} (hc : IsComparator comparator) :
    ∀ left right : List α,
      left.Pairwise (fun a b => comparator a b ≤ 0) →
      right.Pairwise (fun a b => comparator a b ≤ 0) →
      (merge left right comparator).Pairwise (fun a b => comparator a b ≤ 0)
  | [], right => by intro _ hr; simpa [merge] using hr
  | a :: left, [] => by intro hl _; simpa [merge] using hl
  | a :: left, b :: right => by
    intro hl hr
    obtain ⟨hal, hl'⟩ := List.pairwise_cons.mp hl
    obtain ⟨hbr, hr'⟩ := List.pairwise_cons.mp hr
    rw [merge]
    split_ifs with hab
    · refine List.pairwise_cons.mpr ⟨?_, merge_sorted hc left (b :: right) hl' hr⟩
      intro x hx
      rcases List.mem_append.mp ((merge_perm comparator left (b :: right)).mem_iff.mp hx)
        with h | h
      · exact hal x h
      · rcases List.mem_cons.mp h with h | h
        · rw [h]; exact hab
        · exact hc.trans a b x hab (hbr x h)
    · have hba : comparator b a ≤ 0 := hc.facts.1 a b hab
      refine List.pairwise_cons.mpr ⟨?_, merge_sorted hc (a :: left) right hl hr'⟩
      intro x hx
      rcases List.mem_append.mp ((merge_perm comparator (a :: left) right).mem_iff.mp hx)
        with h | h
      · rcases List.mem_cons.mp h with h | h
        · rw [h]; exact hba
        · exact hc.trans b a x hba (hal x h)
      · exact hbr x h
termination_by left right => left.length + right.length

/-- Merging keeps, within a class of mutually tied elements, the elements of the left
side before those of the right side and each side in its order. -/
theorem merge_filter {comparator : α → α → Int} (hc : IsComparator comparator) (p : α → Bool)
    (hp : ∀ x y, p x = true → p y = true → comparator x y ≤ 0) :
    ∀ left right : List α,
      left.Pairwise (fun a b => comparator a b ≤ 0) →
      (merge left right comparator).filter p = left.filter p ++ right.filter p
  | [], right => by intro _; simp [merge]
  | a :: left, [] => by intro _; simp [merge]
  | a :: left, b :: right => by
    intro hl
    obtain ⟨hal, hl'⟩ := List.pairwise_cons.mp hl
    rw [merge]
    split_ifs with hab
    · have ih := merge_filter hc p hp left (b :: right) hl'
      by_cases hpa : p a = true
      · simp [List.filter_cons, hpa, ih]
      · simp [List.filter_cons, hpa, ih]
    · have ih := merge_filter hc p hp (a :: left) right hl
      rw [List.filter_cons, ih]
      by_cases hpb : p b = true
      · have hnil : (a :: left).filter p = [] := by
          rw [List.filter_eq_nil_iff]
          intro x hx hpx
          have hxb := hp x b hpx hpb
          rcases List.mem_cons.mp hx with h | h
          · rw [h] at hxb; exact hab hxb
          · exact hab (hc.trans a x b (hal x h) hxb)
        simp [hpb, hnil]
      · simp [hpb]
termination_by left right => left.length + right.length

/-- An array of at most one element is returned as it is. -/
theorem mergeSort_short (array : List α) (comparator : α → α → Int)
    (h : array.length ≤ 1) : mergeSort array comparator = array := by
  rw [mergeSort]
  simp [h]

/-- A longer array is cut at `length / 2`, the halves are sorted and merged. -/
theorem mergeSort_long (array : List α) (comparator : α → α → Int)
    (h : ¬ array.length ≤ 1) :
    mergeSort array comparator
      = merge (mergeSort (array.take (array.length / 2)) comparator)
          (mergeSort (array.drop (array.length / 2)) comparator) comparator := by
  conv_lhs => rw [mergeSort]
  simp [h]

/-- The result of `mergeSort` holds the elements of its argument, for any comparator. -/
theorem mergeSort_perm (comparator : α → α → Int) :
    ∀ (n : Nat) (array : List α), array.length ≤ n →
      (mergeSort array comparator).Perm array := by
  intro n
  induction n with
  | zero =>
    intro array h
    rw [mergeSort_short array comparator (by omega)]
  | succ n ih =>
    intro array h
    by_cases hshort : array.length ≤ 1
    · rw [mergeSort_short array comparator hshort]
    · rw [mergeSort_long array comparator hshort]
      have hl := ih (array.take (array.length / 2)) (by rw [List.length_take]; omega)
      have hr := ih (array.drop (array.length / 2)) (by rw [List.length_drop]; omega)
      have happ := List.Perm.append hl hr
      rw [List.take_append_drop] at happ
      exact (merge_perm comparator _ _).trans happ

/-- With an ordering comparator the result of `mergeSort` is ordered, and within a class
of mutually tied elements it keeps the order of its argument. -/
theorem mergeSort_sorted_stable {comparator : α → α → Int} (hc : IsComparator comparator)
    (p : α → Bool) (hp : ∀ x y, p x = true → p y = true → comparator x y ≤ 0) :
    ∀ (n : Nat) (array : List α), array.length ≤ n →
      (mergeSort array comparator).Pairwise (fun a b => comparator a b ≤ 0)
      ∧ (mergeSort array comparator).filter p = array.filter p := by
  intro n
  induction n with
  | zero =>
    intro array h
    have hnil : array = [] := List.length_eq_zero.mp (by omega)
    subst hnil
    rw [mergeSort_short [] comparator (by simp)]
    exact ⟨List.Pairwise.nil, rfl⟩
  | succ n ih =>
    intro array h
    by_cases hshort : array.length ≤ 1
    · rw [mergeSort_short array comparator hshort]
      refine ⟨?_, rfl⟩
      rcases array with _ | ⟨a, _ | ⟨b, rest⟩⟩
      · exact List.Pairwise.nil
      · exact List.pairwise_singleton _ a
      · simp at hshort
    · rw [mergeSort_long array comparator hshort]
      obtain ⟨sl, fl⟩ := ih (array.take (array.length / 2)) (by rw [List.length_take]; omega)
      obtain ⟨sr, fr⟩ := ih (array.drop (array.length / 2)) (by rw [List.length_drop]; omega)
      refine ⟨merge_sorted hc _ _ sl sr, ?_⟩
      rw [merge_filter hc p hp _ _ sl, fl, fr, ← List.filter_append, List.take_append_drop]

/-- One step of `sortMultiple`: the first key decides unless the rows tie on it. -/
theorem sortMultiple_cons {Row Value : Type} (getProp : Row → String → Value)
    (compareFunction : Value → Value → Int) (key : Sorting) (rest : List Sorting)
    (rowA rowB : Row) :
    sortMultiple getProp rowA rowB (key :: rest) compareFunction
      = if keyCompare getProp compareFunction key rowA rowB ≠ 0 then
          keyCompare getProp compareFunction key rowA rowB
        else sortMultiple getProp rowA rowB rest compareFunction := by
  rfl

/-- The comparison on one key orders the rows when the value comparator orders. -/
theorem keyCompare_isComparator {Row Value : Type} (getProp : Row → String → Value)
    {compareFunction : Value → Value → Int} (hc : IsComparator compareFunction)
    (key : Sorting) : IsComparator (keyCompare getProp compareFunction key) := by
  constructor
  · intro a b
    have h1 := hc.swap (getProp a key.prop) (getProp b key.prop)
    have h2 := hc.swap (getProp b key.prop) (getProp a key.prop)
    unfold keyCompare
    split_ifs <;> omega
  · intro a b c
    have t1 := hc.trans (getProp a key.prop) (getProp b key.prop) (getProp c key.prop)
    have t2 := hc.trans (getProp c key.prop) (getProp b key.prop) (getProp a key.prop)
    have s1 := hc.swap (getProp a key.prop) (getProp b key.prop)
    have s2 := hc.swap (getProp b key.prop) (getProp a key.prop)
    have s3 := hc.swap (getProp b key.prop) (getProp c key.prop)
    have s4 := hc.swap (getProp c key.prop) (getProp b key.prop)
    have s5 := hc.swap (getProp a key.prop) (getProp c key.prop)
    have s6 := hc.swap (getProp c key.prop) (getProp a key.prop)
    unfold keyCompare
    split_ifs
    · intro hab hbc
      have := t2 (by omega) (by omega)
      omega
    · exact t1

/-- The multi-key comparison orders the rows when the value comparator orders. -/
theorem sortMultiple_isComparator {Row Value : Type} (getProp : Row → String → Value)
    {compareFunction : Value → Value → Int} (hc : IsComparator compareFunction)
    (sortings : List Sorting) :
    IsComparator (fun a b : Row => sortMultiple getProp a b sortings compareFunction) := by
  induction sortings with
  | nil =>
    constructor
    · intro a b; simp [sortMultiple]
    · intro a b c _ _; simp [sortMultiple]
  | cons key rest ih =>
    have hk := keyCompare_isComparator getProp hc key
    obtain ⟨_, hzero, hlt1, hlt2, hz3⟩ := hk.facts
    constructor
    · intro a b
      simp only [sortMultiple_cons]
      by_cases hab : keyCompare getProp compareFunction key a b = 0
      · have hba := hzero a b hab
        simp only [hab, hba, ne_eq, not_true_eq_false, if_false]
        exact ih.swap a b
      · have hba : keyCompare getProp compareFunction key b a ≠ 0 :=
          fun h => hab (hzero b a h)
        simp only [hab, hba, ne_eq, not_false_eq_true, if_true]
        exact hk.swap a b
    · intro a b c
      simp only [sortMultiple_cons]
      by_cases hab : keyCompare getProp compareFunction key a b = 0
      · by_cases hbc : keyCompare getProp compareFunction key b c = 0
        · have hac := hz3 a b c hab hbc
          simp only [hab, hbc, hac, ne_eq, not_true_eq_false, if_false]
          exact ih.trans a b c
        · simp only [hab, hbc, ne_eq, not_true_eq_false, not_false_eq_true, if_false, if_true]
          intro _ h2
          have hac := hlt2 a b c (le_of_eq hab) (lt_of_le_of_ne h2 hbc)
          simp only [ne_of_lt hac, not_false_eq_true, if_true]
          exact le_of_lt hac
      · simp only [hab, ne_eq, not_false_eq_true, if_true]
        intro h1 h2
        have hbc' : keyCompare getProp compareFunction key b c ≤ 0 := by
          by_cases hbc : keyCompare getProp compareFunction key b c = 0
          · exact le_of_eq hbc
          · simpa only [hbc, ne_eq, not_false_eq_true, if_true] using h2
        have hac := hlt1 a b c (lt_of_le_of_ne h1 hab) hbc'
        simp only [ne_of_lt hac, not_false_eq_true, if_true]
        exact le_of_lt hac

/-- The multi-key comparison is `0` exactly when the rows tie on every key. -/
theorem sortMultiple_eq_zero_iff {Row Value : Type} (getProp : Row → String → Value)
    (compareFunction : Value → Value → Int) (sortings : List Sorting) (rowA rowB : Row) :
    sortMultiple getProp rowA rowB sortings compareFunction = 0
      ↔ tiesOnAll getProp compareFunction sortings rowA rowB = true := by
  induction sortings with
  | nil => simp [sortMultiple, tiesOnAll]
  | cons key rest ih =>
    have hk : keyCompare getProp compareFunction key rowA rowB = 0
        ↔ compareFunction (getProp rowA key.prop) (getProp rowB key.prop) = 0 := by
      unfold keyCompare
      split_ifs <;> omega
    unfold tiesOnAll at ih ⊢
    rw [sortMultiple_cons, List.all_cons, Bool.and_eq_true, ← ih, beq_iff_eq, ← hk]
    by_cases h : keyCompare getProp compareFunction key rowA rowB = 0
    · simp [h]
    · simp [h]

/-- The scenario comparator orders the strings. -/
theorem scenarioCompare_isComparator : IsComparator scenarioCompare := by
  constructor
  · intro a b
    unfold scenarioCompare
    rcases lt_trichotomy a b with h | h | h
    · have h1 : ¬ b < a := not_lt_of_gt h
      have h2 : b ≠ a := ne_of_gt h
      simp [h, h1, h2]
    · subst h
      simp
    · have h1 : ¬ a < b := not_lt_of_gt h
      have h2 : a ≠ b := ne_of_gt h
      simp [h, h1, h2]
  · intro a b c
    unfold scenarioCompare
    intro hab hbc
    have h1 : a ≤ b := by
      by_contra hn
      have hlt : b < a := lt_of_not_ge hn
      have : ¬ a < b := not_lt_of_gt hlt
      have hne : a ≠ b := ne_of_gt hlt
      simp [this, hne] at hab
    have h2 : b ≤ c := by
      by_contra hn
      have hlt : c < b := lt_of_not_ge hn
      have : ¬ b < c := not_lt_of_gt hlt
      have hne : b ≠ c := ne_of_gt hlt
      simp [this, hne] at hbc
    rcases lt_or_eq_of_le (le_trans h1 h2) with h | h
    · simp [h]
    · subst h
      simp

/-- C17: with the default `sortMultiple` and a value comparator that orders,
`sortedData` is a permutation of `filteredData`, ordered by the multi-key comparison
over the active sort keys (registry order, `desc` inverting a key), and stable: for
every row, the rows that tie with it on every active key come in the order they have in
`filteredData`. When no column has a sort, `sortedData` is `filteredData`. -/
theorem sortedData_sorted_stable {Row Value Ctx : Type} (getProp : Row → String → Value)
    (compareFunction : Value → Value → Int) (hc : IsComparator compareFunction)
    (columns : List (Column Value Ctx)) (filteredData : List Row) :
    (sortedData (sortMultiple getProp) compareFunction columns filteredData).Perm filteredData
    ∧ (sortedData (sortMultiple getProp) compareFunction columns filteredData).Pairwise
        (fun a b => sortMultiple getProp a b (sortings columns) compareFunction ≤ 0)
    ∧ (∀ row : Row,
        (sortedData (sortMultiple getProp) compareFunction columns filteredData).filter
            (tiesOnAll getProp compareFunction (sortings columns) row)
          = filteredData.filter (tiesOnAll getProp compareFunction (sortings columns) row))
    ∧ ((∀ c ∈ columns, c.sort = none) →
        sortedData (sortMultiple getProp) compareFunction columns filteredData
          = filteredData) := by
  have hcmp : IsComparator
      (fun a b : Row => sortMultiple getProp a b (sortings columns) compareFunction) :=
    sortMultiple_isComparator getProp hc (sortings columns)
  by_cases hkeys : (sortings columns).length > 0
  · have hout : sortedData (sortMultiple getProp) compareFunction columns filteredData
        = mergeSort filteredData
            (fun a b => sortMultiple getProp a b (sortings columns) compareFunction) := by
      simp only [sortedData, hkeys, if_true]
    rw [hout]
    refine ⟨mergeSort_perm _ _ filteredData (le_refl _), ?_, ?_, ?_⟩
    · exact (mergeSort_sorted_stable hcmp (fun _ => false)
        (fun x y h _ => by cases h) _ filteredData (le_refl _)).1
    · intro row
      refine (mergeSort_sorted_stable hcmp _ ?_ _ filteredData (le_refl _)).2
      intro x y hx hy
      have hx0 := (sortMultiple_eq_zero_iff getProp compareFunction _ row x).mpr hx
      have hy0 := (sortMultiple_eq_zero_iff getProp compareFunction _ row y).mpr hy
      obtain ⟨_, hzero, _, _, hz3⟩ := hcmp.facts
      exact le_of_eq (hz3 x row y (hzero row x hx0) hy0)
    · intro hnone
      exfalso
      have : sortings columns = [] := by
        unfold sortings
        rw [List.filterMap_eq_nil_iff]
        intro c hcmem
        simp [hnone c hcmem]
      rw [this] at hkeys
      simp at hkeys
  · have hnil : sortings columns = [] := by
      cases h : sortings columns with
      | nil => rfl
      | cons k ks => rw [h] at hkeys; simp at hkeys
    have hout : sortedData (sortMultiple getProp) compareFunction columns filteredData
        = filteredData := by
      simp only [sortedData, hkeys, if_false]
    rw [hout, hnil]
    refine ⟨List.Perm.refl _, ?_, fun _ => rfl, fun _ => rfl⟩
    exact List.pairwise_of_forall (by intro a b; simp [sortMultiple])

/-- C17 on the scenario of the specification: the rows
`[{n:"b",v:2},{n:"a",v:1},{n:"a",v:0}]` sorted by `n` ascending, then `v` ascending,
give `[{a,0},{a,1},{b,2}]`, a permutation of the input; sorted by `n` alone, the two
rows with `n = "a"` keep their input order. -/
theorem sortedData_sorted_stable_witness :
    sortedData (sortMultiple scenarioGet) scenarioCompare
        [scenarioSortColumn "n" (some Direction.asc), scenarioSortColumn "v" (some Direction.asc)]
        scenarioRows = [("a", "0"), ("a", "1"), ("b", "2")]
    ∧ sortedData (sortMultiple scenarioGet) scenarioCompare
        [scenarioSortColumn "n" (some Direction.asc), scenarioSortColumn "v" none]
        scenarioRows = [("a", "1"), ("a", "0"), ("b", "2")]
    ∧ (sortedData (sortMultiple scenarioGet) scenarioCompare
        [scenarioSortColumn "n" (some Direction.asc), scenarioSortColumn "v" (some Direction.asc)]
        scenarioRows).Perm scenarioRows :=
  ⟨by
    simp +decide [sortedData, sortings, scenarioSortColumn, scenarioRows, mergeSort, merge,
      sortMultiple, scenarioGet, scenarioCompare],
   by
    simp +decide [sortedData, sortings, scenarioSortColumn, scenarioRows, mergeSort, merge,
      sortMultiple, scenarioGet, scenarioCompare],
   (sortedData_sorted_stable scenarioGet scenarioCompare scenarioCompare_isComparator
      [scenarioSortColumn "n" (some Direction.asc), scenarioSortColumn "v" (some Direction.asc)]
      scenarioRows).1⟩

end SortStage

/-! ### Output selection -/

section Output

variable {Row Value Ctx : Type}

/-- C15: with `loadData` set, `processedData` is `resolvedData`, so two components with
`loadData` set and the same `resolvedData` give the same output whatever their filter,
sort and pagination state and their columns are; without `loadData`, `processedData`
is `pagedData`. -/
theorem processedData_selects (access₁ access₂ : Access Row Value)
    (t₁ t₂ : Pipeline Row Value Ctx) (rows : List Row) :
    processedData access₁ { t₁ with loadData := true } = t₁.resolvedData
    ∧ processedData access₁ { t₁ with loadData := true, resolvedData := rows }
        = processedData access₂ { t₂ with loadData := true, resolvedData := rows }
    ∧ processedData access₁ { t₁ with loadData := false }
        = Pipeline.pagedData access₁ { t₁ with loadData := false }
    ∧ processedData access₁ { t₁ with loadData := false }
        = pagedData t₁.pagination
            (sortedData t₁.sortFunction t₁.compareFunction t₁.columns
              (filteredData access₁.compileGeneral access₁.compileColumn access₁.getProp
                t₁.columns t₁.filter t₁.filterFunction t₁.filterUsing t₁.resolvedData))
            (paginationData t₁.pageSize t₁.pageNumber t₁.totalRows) :=
  ⟨rfl, rfl, rfl, rfl⟩

end Output

end YetiTable
